import Mathlib

/-!
Verification development for the PostTrainAgent orchestration core.

This file gives a shallow embedding, in Lean 4, of the orchestration core of
the repository: the argument repair pipeline (`safe_parse_json` in
`main.py`), the tool dispatcher and handlers (`tools/impl.py`), the bounded
sub-agent spawner (`run_task`), the job tracker (`tools/job_manager.py`),
the todo manager (`tools/todo_manager.py`), the tool filter
(`tools/base.py`) and the top-level control loop (`agent_loop` in
`main.py`), together with theorems about them.

Modelling conventions:
- Python strings are `String` / `List Char`; whitespace is the JSON
  whitespace set (space, tab, newline, carriage return) throughout.
- Python values that can appear as decoded tool arguments are `PyVal`
  (strings, integers, booleans, None, lists, dicts).  Floating point
  numerals and `\uXXXX` escapes are outside the model.
- `json.loads` (an external library the code calls) is embedded as a
  recursive-descent JSON parser with a strictness flag: `strict = true`
  rejects unescaped control characters inside strings, `strict = false`
  (the mode used by the pipeline's stage 2) accepts them.
- Exceptions are `Except`; machine effects (backend, shell, process
  liveness, clock) are oracle functions in a `Sys` record, and mutable
  process state (files, jobs, todos, an event trace) is threaded as `St`.
-/

/-! ## Characters and whitespace -/

/-- The left-brace character, written by code point to keep source braces
out of string/char literals. -/
def lbrace : Char := Char.ofNat 123

/-- The right-brace character. -/
def rbrace : Char := Char.ofNat 125

/-- The backtick character. -/
def btick : Char := Char.ofNat 96

/-- JSON whitespace (also the whitespace stripped by the pipeline's
normalisation step): space, tab, newline, carriage return. -/
def isWsC (c : Char) : Bool := c = ' ' || c = '\t' || c = '\n' || c = '\r'

/-- Drop leading whitespace. -/
def skipWsL (cs : List Char) : List Char := cs.dropWhile isWsC

/-- The leading whitespace itself. -/
def wsTake (cs : List Char) : List Char := cs.takeWhile isWsC

/-- Drop trailing whitespace. -/
def dropEndWs (cs : List Char) : List Char := (cs.reverse.dropWhile isWsC).reverse

/-- Strip whitespace from both ends (the model of `str.strip()` on the
inputs the pipeline sees). -/
def trimB (cs : List Char) : List Char := dropEndWs (skipWsL cs)

/-! ## Python values -/

/-- Values produced by decoding tool arguments: the fragment of Python
values the orchestration core manipulates. -/
inductive PyVal where
  | str : String → PyVal
  | int : Int → PyVal
  | bool : Bool → PyVal
  | none : PyVal
  | list : List PyVal → PyVal
  | dict : List (PyVal × PyVal) → PyVal

/-! ## The JSON parser (embedding of `json.loads`)

`parse_val b fuel cs` parses one JSON value from the front of `cs`.
The flag `b` is the `strict` flag of `json.loads`: when true, unescaped
control characters inside string literals are rejected.  Whitespace is
consumed by the bracketing constructs, never by `parse_val` itself, so a
successfully parsed object always starts at its `{` and ends at its `}`. -/

/-- JSON string escapes (`\uXXXX` omitted from the model). -/
def esc_char (c : Char) : Option Char :=
  if c = '"' then some '"'
  else if c = '\\' then some '\\'
  else if c = '/' then some '/'
  else if c = 'n' then some '\n'
  else if c = 't' then some '\t'
  else if c = 'r' then some '\r'
  else if c = 'b' then some (Char.ofNat 8)
  else if c = 'f' then some (Char.ofNat 12)
  else Option.none

/-- Character admissibility inside a JSON string literal: lenient mode
(`strict = false`) accepts control characters, strict mode rejects them. -/
def str_ok (strict : Bool) (c : Char) : Bool := !strict || decide (32 ≤ c.toNat)

/-- Body of a JSON string literal, after the opening quote. -/
def parse_str_body (b : Bool) : List Char → Option (List Char × List Char)
  | [] => Option.none
  | c :: rest =>
    if c = '"' then some ([], rest)
    else if c = '\\' then
      match rest with
      | [] => Option.none
      | e :: rest2 =>
        match esc_char e with
        | some d =>
          match parse_str_body b rest2 with
          | some (s, r) => some (d :: s, r)
          | Option.none => Option.none
        | Option.none => Option.none
    else if str_ok b c then
      match parse_str_body b rest with
      | some (s, r) => some (c :: s, r)
      | Option.none => Option.none
    else Option.none

/-- A nonempty run of decimal digits, as a natural number. -/
def parse_nat (cs : List Char) : Option (Nat × List Char) :=
  let ds := cs.takeWhile Char.isDigit
  if ds.isEmpty then Option.none
  else some (ds.foldl (fun a c => 10 * a + (c.toNat - 48)) 0, cs.dropWhile Char.isDigit)

mutual

/-- One JSON value from the front of the input (no leading whitespace). -/
def parse_val (b : Bool) : Nat → List Char → Option (PyVal × List Char)
  | 0, _ => Option.none
  | n + 1, cs =>
    match cs with
    | [] => Option.none
    | c :: rest =>
      if c = lbrace then
        match skipWsL rest with
        | d :: rest2 =>
          if d = rbrace then some (PyVal.dict [], rest2)
          else
            match parse_members b n (d :: rest2) with
            | some (kvs, r) => some (PyVal.dict kvs, r)
            | Option.none => Option.none
        | [] => Option.none
      else if c = '[' then
        match skipWsL rest with
        | d :: rest2 =>
          if d = ']' then some (PyVal.list [], rest2)
          else
            match parse_elems b n (d :: rest2) with
            | some (vs, r) => some (PyVal.list vs, r)
            | Option.none => Option.none
        | [] => Option.none
      else if c = '"' then
        match parse_str_body b rest with
        | some (s, r) => some (PyVal.str (String.mk s), r)
        | Option.none => Option.none
      else if c = 'n' then
        if rest.take 3 == ['u', 'l', 'l'] then some (PyVal.none, rest.drop 3) else Option.none
      else if c = 't' then
        if rest.take 3 == ['r', 'u', 'e'] then some (PyVal.bool true, rest.drop 3) else Option.none
      else if c = 'f' then
        if rest.take 4 == ['a', 'l', 's', 'e'] then some (PyVal.bool false, rest.drop 4)
        else Option.none
      else if c = '-' then
        match parse_nat rest with
        | some (m, r) => some (PyVal.int (-(m : Int)), r)
        | Option.none => Option.none
      else if c.isDigit then
        match parse_nat (c :: rest) with
        | some (m, r) => some (PyVal.int (m : Int), r)
        | Option.none => Option.none
      else Option.none

/-- Object members after the opening brace and leading whitespace, when the
object is not empty; consumes through the closing brace. -/
def parse_members (b : Bool) : Nat → List Char → Option (List (PyVal × PyVal) × List Char)
  | 0, _ => Option.none
  | n + 1, cs =>
    match cs with
    | [] => Option.none
    | c :: rest =>
      if c = '"' then
        match parse_str_body b rest with
        | some (k, r1) =>
          match skipWsL r1 with
          | d1 :: r2 =>
            if d1 = ':' then
              match parse_val b n (skipWsL r2) with
              | some (v, r3) =>
                match skipWsL r3 with
                | d :: r4 =>
                  if d = ',' then
                    match parse_members b n (skipWsL r4) with
                    | some (kvs, r5) => some ((PyVal.str (String.mk k), v) :: kvs, r5)
                    | Option.none => Option.none
                  else if d = rbrace then some ([(PyVal.str (String.mk k), v)], r4)
                  else Option.none
                | [] => Option.none
              | Option.none => Option.none
            else Option.none
          | [] => Option.none
        | Option.none => Option.none
      else Option.none

/-- Array elements after the opening bracket and leading whitespace, when
the array is not empty; consumes through the closing bracket. -/
def parse_elems (b : Bool) : Nat → List Char → Option (List PyVal × List Char)
  | 0, _ => Option.none
  | n + 1, cs =>
    match parse_val b n cs with
    | some (v, r) =>
      match skipWsL r with
      | d :: r2 =>
        if d = ',' then
          match parse_elems b n (skipWsL r2) with
          | some (vs, r3) => some (v :: vs, r3)
          | Option.none => Option.none
        else if d = ']' then some ([v], r2)
        else Option.none
      | [] => Option.none
    | Option.none => Option.none

end

/-- `json.loads` on a character list: strip surrounding whitespace, parse
one value, require the input to be exhausted. -/
def json_loads_core (b : Bool) (cs : List Char) : Option PyVal :=
  let t := trimB cs
  match parse_val b (t.length + 1) t with
  | some (v, []) => some v
  | _ => Option.none

/-- `json.loads(s, strict = b)`. -/
def json_loads (b : Bool) (s : String) : Option PyVal := json_loads_core b s.data

/-! ## The Python literal parser (embedding of `ast.literal_eval`)

The pipeline's stage 3 substitutes `None`/`True`/`False` for the JSON
literal tokens and then parses the text as a Python literal: dictionaries
with arbitrary literal keys, single- or double-quoted strings (no literal
newline inside a string), integers, booleans, `None`, and lists. -/

/-- Python string escapes handled by the model; an unknown escape keeps the
backslash and the character, as Python does. -/
def py_esc (c : Char) : Option Char :=
  if c = '"' then some '"'
  else if c = '\'' then some '\''
  else if c = '\\' then some '\\'
  else if c = 'n' then some '\n'
  else if c = 't' then some '\t'
  else if c = 'r' then some '\r'
  else if c = 'b' then some (Char.ofNat 8)
  else if c = 'f' then some (Char.ofNat 12)
  else Option.none

/-- Body of a Python string literal with quote character `q`: a literal
newline or carriage return ends the line and is a syntax error. -/
def py_str_body (q : Char) : List Char → Option (List Char × List Char)
  | [] => Option.none
  | c :: rest =>
    if c = q then some ([], rest)
    else if c = '\\' then
      match rest with
      | [] => Option.none
      | e :: rest2 =>
        match py_esc e with
        | some d =>
          match py_str_body q rest2 with
          | some (s, r) => some (d :: s, r)
          | Option.none => Option.none
        | Option.none =>
          match py_str_body q rest2 with
          | some (s, r) => some ('\\' :: e :: s, r)
          | Option.none => Option.none
    else if c = '\n' || c = '\r' then Option.none
    else
      match py_str_body q rest with
      | some (s, r) => some (c :: s, r)
      | Option.none => Option.none

mutual

/-- One Python literal from the front of the input (no leading whitespace). -/
def py_val : Nat → List Char → Option (PyVal × List Char)
  | 0, _ => Option.none
  | n + 1, cs =>
    match cs with
    | [] => Option.none
    | c :: rest =>
      if c = lbrace then
        match skipWsL rest with
        | d :: rest2 =>
          if d = rbrace then some (PyVal.dict [], rest2)
          else
            match py_members n (d :: rest2) with
            | some (kvs, r) => some (PyVal.dict kvs, r)
            | Option.none => Option.none
        | [] => Option.none
      else if c = '[' then
        match skipWsL rest with
        | d :: rest2 =>
          if d = ']' then some (PyVal.list [], rest2)
          else
            match py_elems n (d :: rest2) with
            | some (vs, r) => some (PyVal.list vs, r)
            | Option.none => Option.none
        | [] => Option.none
      else if c = '"' || c = '\'' then
        match py_str_body c rest with
        | some (s, r) => some (PyVal.str (String.mk s), r)
        | Option.none => Option.none
      else if c = 'N' then
        if rest.take 3 == ['o', 'n', 'e'] then some (PyVal.none, rest.drop 3) else Option.none
      else if c = 'T' then
        if rest.take 3 == ['r', 'u', 'e'] then some (PyVal.bool true, rest.drop 3) else Option.none
      else if c = 'F' then
        if rest.take 4 == ['a', 'l', 's', 'e'] then some (PyVal.bool false, rest.drop 4)
        else Option.none
      else if c = '-' then
        match parse_nat rest with
        | some (m, r) => some (PyVal.int (-(m : Int)), r)
        | Option.none => Option.none
      else if c.isDigit then
        match parse_nat (c :: rest) with
        | some (m, r) => some (PyVal.int (m : Int), r)
        | Option.none => Option.none
      else Option.none

/-- Nonempty dictionary display members; consumes through the closing brace. -/
def py_members : Nat → List Char → Option (List (PyVal × PyVal) × List Char)
  | 0, _ => Option.none
  | n + 1, cs =>
    match py_val n cs with
    | some (k, r1) =>
      match skipWsL r1 with
      | d1 :: r2 =>
        if d1 = ':' then
          match py_val n (skipWsL r2) with
          | some (v, r3) =>
            match skipWsL r3 with
            | d :: r4 =>
              if d = ',' then
                match py_members n (skipWsL r4) with
                | some (kvs, r5) => some ((k, v) :: kvs, r5)
                | Option.none => Option.none
              else if d = rbrace then some ([(k, v)], r4)
              else Option.none
            | [] => Option.none
          | Option.none => Option.none
        else Option.none
      | [] => Option.none
    | Option.none => Option.none

/-- Nonempty list display elements; consumes through the closing bracket. -/
def py_elems : Nat → List Char → Option (List PyVal × List Char)
  | 0, _ => Option.none
  | n + 1, cs =>
    match py_val n cs with
    | some (v, r) =>
      match skipWsL r with
      | d :: r2 =>
        if d = ',' then
          match py_elems n (skipWsL r2) with
          | some (vs, r3) => some (v :: vs, r3)
          | Option.none => Option.none
        else if d = ']' then some ([v], r2)
        else Option.none
      | [] => Option.none
    | Option.none => Option.none

end

/-- `ast.literal_eval` on a character list. -/
def literal_eval_core (cs : List Char) : Option PyVal :=
  let t := trimB cs
  match py_val (t.length + 1) t with
  | some (v, []) => some v
  | _ => Option.none

/-! ## String replacement (embedding of `str.replace`) -/

/-- Left-to-right, non-overlapping replacement of `p` by `r`, with explicit
fuel (one unit per character position). -/
def replace_all_fuel (p r : List Char) : Nat → List Char → List Char
  | 0, cs => cs
  | _ + 1, [] => []
  | f + 1, c :: cs =>
    if decide (p ≠ []) && (c :: cs).take p.length == p then
      r ++ replace_all_fuel p r f ((c :: cs).drop p.length)
    else c :: replace_all_fuel p r f cs

/-- `subject.replace(p, r)`. -/
def replace_all (p r cs : List Char) : List Char := replace_all_fuel p r cs.length cs

/-! ## Fence extraction (the pipeline's normalisation regex)

`main.py` removes a Markdown code fence with
`re.search(r"```(?:json)?\s*(\{.*?\})\s*```", cleaned, re.DOTALL)`.
The functions below implement exactly that search: leftmost opening
fence, optional `json` tag, greedy whitespace, a lazily-matched brace
group, whitespace, closing fence. -/

/-- Does the input begin, after whitespace, with three backticks?
(The `\s*```' tail of the regex; both quantifiers are determined because
a backtick is not whitespace.) -/
def fence_close (cs : List Char) : Bool :=
  match skipWsL cs with
  | a :: b :: c :: _ => a = btick && b = btick && c = btick
  | _ => false

/-- The lazy group `.*?\}` followed by `\s*```': returns the group content
through the first closing brace whose tail matches, including that brace. -/
def scan_group : List Char → Option (List Char)
  | [] => Option.none
  | c :: rest =>
    if c = rbrace && fence_close rest then some [rbrace]
    else
      match scan_group rest with
      | some g => some (c :: g)
      | Option.none => Option.none

/-- The optional `json` tag after the opening fence. -/
def strip_json_tag (cs : List Char) : List Char :=
  if cs.take 4 == ['j', 's', 'o', 'n'] then cs.drop 4 else cs

/-- Attempt the fence pattern just after an opening ```` ``` ````. -/
def match_fence_at (cs : List Char) : Option (List Char) :=
  match skipWsL (strip_json_tag cs) with
  | c :: rest =>
    if c = lbrace then
      match scan_group rest with
      | some g => some (lbrace :: g)
      | Option.none => Option.none
    else Option.none
  | [] => Option.none

/-- Leftmost match of the whole fence pattern; on failure at one opening
fence the search resumes at the next character, as `re.search` does. -/
def find_fence : List Char → Option (List Char)
  | [] => Option.none
  | c :: rest =>
    if c = btick && rest.take 2 == [btick, btick] then
      match match_fence_at (rest.drop 2) with
      | some g => some g
      | Option.none => find_fence rest
    else find_fence rest

/-- Substring test (`p in s` for strings). -/
def contains_sub (p : List Char) : List Char → Bool
  | [] => p == []
  | c :: rest => p.isPrefixOf (c :: rest) || contains_sub p rest

/-! ## Stage-4 regex rescue (`"path"` / `"content"` extraction) -/

/-- The literal `"path"` as characters. -/
def pathKey : List Char := '"' :: 'p' :: 'a' :: 't' :: 'h' :: '"' :: []

/-- The literal `"content"` as characters. -/
def contentKey : List Char := '"' :: 'c' :: 'o' :: 'n' :: 't' :: 'e' :: 'n' :: 't' :: '"' :: []

/-- After `"path"`: `\s*:\s*"([^"]+)"`. -/
def try_path_after (cs : List Char) : Option (List Char) :=
  match skipWsL cs with
  | d1 :: r =>
    if d1 = ':' then
      match skipWsL r with
      | d2 :: r2 =>
        if d2 = '"' then
          let v := r2.takeWhile (fun c => c != '"')
          if v.isEmpty then Option.none
          else
            match r2.drop v.length with
            | d3 :: _ => if d3 = '"' then some v else Option.none
            | [] => Option.none
        else Option.none
      | [] => Option.none
    else Option.none
  | [] => Option.none

/-- Leftmost match of `"path"\s*:\s*"([^"]+)"`. -/
def find_path_val : List Char → Option (List Char)
  | [] => Option.none
  | c :: rest =>
    if pathKey.isPrefixOf (c :: rest) then
      match try_path_after ((c :: rest).drop pathKey.length) with
      | some v => some v
      | Option.none => find_path_val rest
    else find_path_val rest

/-- Is the next non-whitespace character a closing brace?  (The `\s*\}`
tail of the content pattern.) -/
def brace_after (cs : List Char) : Bool :=
  match skipWsL cs with
  | d :: _ => d = rbrace
  | [] => false

/-- The greedy group `(.*)"\s*\}` under DOTALL: content up to the last
quote whose tail matches. -/
def greedy_quote_brace : List Char → Option (List Char)
  | [] => Option.none
  | c :: rest =>
    match greedy_quote_brace rest with
    | some g => some (c :: g)
    | Option.none => if c = '"' && brace_after rest then some [] else Option.none

/-- After `"content"`: `\s*:\s*"(.*)"\s*\}` with a greedy group. -/
def try_content_after (cs : List Char) : Option (List Char) :=
  match skipWsL cs with
  | d1 :: r =>
    if d1 = ':' then
      match skipWsL r with
      | d2 :: r2 => if d2 = '"' then greedy_quote_brace r2 else Option.none
      | [] => Option.none
    else Option.none
  | [] => Option.none

/-- Leftmost match of `"content"\s*:\s*"(.*)"\s*\}`. -/
def find_content_val : List Char → Option (List Char)
  | [] => Option.none
  | c :: rest =>
    if contentKey.isPrefixOf (c :: rest) then
      match try_content_after ((c :: rest).drop contentKey.length) with
      | some v => some v
      | Option.none => find_content_val rest
    else find_content_val rest

/-- Best-effort `unicode_escape` decoding of the rescued content
(`\uXXXX` and octal forms omitted; unknown escapes keep both characters). -/
def unesc : List Char → List Char
  | [] => []
  | '\\' :: c :: rest =>
    match esc_char c with
    | some d => d :: unesc rest
    | Option.none => '\\' :: c :: unesc rest
  | c :: rest => c :: unesc rest

/-! ## The argument repair pipeline (`safe_parse_json` in `main.py`) -/

/-- `null`, `true`, `false`, `None`, `True`, `False` as character lists. -/
def nullTok : List Char := 'n' :: 'u' :: 'l' :: 'l' :: []

/-- The replacement text `None`. -/
def noneTok : List Char := 'N' :: 'o' :: 'n' :: 'e' :: []

/-- The token `true`. -/
def trueTok : List Char := 't' :: 'r' :: 'u' :: 'e' :: []

/-- The replacement text `True`. -/
def truePyTok : List Char := 'T' :: 'r' :: 'u' :: 'e' :: []

/-- The token `false`. -/
def falseTok : List Char := 'f' :: 'a' :: 'l' :: 's' :: 'e' :: []

/-- The replacement text `False`. -/
def falsePyTok : List Char := 'F' :: 'a' :: 'l' :: 's' :: 'e' :: []

/-- Three backticks (the fence marker tested with `"```" in cleaned`). -/
def tripleBT : List Char := btick :: btick :: btick :: []

/-- Strip a trailing run of backslashes (`cleaned.rstrip("\\")`). -/
def rstrip_bs (cs : List Char) : List Char :=
  (cs.reverse.dropWhile (fun c => c = '\\')).reverse

/-- Truncate after the last closing brace if one exists
(`cleaned[:cleaned.rfind('}')+1]`). -/
def trunc_last_rbrace (cs : List Char) : List Char :=
  match cs.reverse.dropWhile (fun c => !(c = rbrace)) with
  | [] => cs
  | l => l.reverse

/-- The error raised by the pipeline's final stage. -/
def parse_fail_msg (s : String) : String :=
  "Failed to parse arguments. Raw: " ++ s.take 200 ++ "..."

/-- `safe_parse_json` from `main.py`: normalisation (strip, fence
extraction, trailing-backslash strip, truncation after the last brace),
then lenient JSON decode, then Python-literal decode of the
`null`/`true`/`false`-substituted text, then the `path`/`content` regex
rescue, then a reported failure.  (The Python function also passes any
non-string argument straight through; the model's input is a string.) -/
def safe_parse_json (s : String) : Except String PyVal :=
  let cleaned0 := trimB s.data
  let cleaned1 :=
    if contains_sub tripleBT cleaned0 then
      match find_fence cleaned0 with
      | some g => g
      | Option.none => cleaned0
    else cleaned0
  let cleaned2 := rstrip_bs cleaned1
  let cleaned := trunc_last_rbrace cleaned2
  match json_loads_core false cleaned with
  | some v => Except.ok v
  | Option.none =>
    match literal_eval_core
        (replace_all falseTok falsePyTok
          (replace_all trueTok truePyTok
            (replace_all nullTok noneTok cleaned))) with
    | some v => Except.ok v
    | Option.none =>
      if contains_sub pathKey cleaned && contains_sub contentKey cleaned then
        match find_path_val cleaned, find_content_val cleaned with
        | some p, some craw =>
          Except.ok (PyVal.dict
            [(PyVal.str "path", PyVal.str (String.mk p)),
             (PyVal.str "content", PyVal.str (String.mk (unesc craw))),
             (PyVal.str "append", PyVal.bool false)])
        | _, _ => Except.error (parse_fail_msg s)
      else Except.error (parse_fail_msg s)

/-! ## Python value helpers -/

/-- The apostrophe character (by code point). -/
def squote : Char := Char.ofNat 39

/-- A one-character apostrophe string, used by `repr`-style renderings. -/
def apos : String := String.mk [squote]

/-- The Python exceptions the orchestration core can propagate. -/
inductive PyExn where
  | keyError (k : String)
  | typeError (m : String)
  | valueError (m : String)
  | jsonError (m : String)
deriving DecidableEq

/-- `str(e)`: a `KeyError` renders as its quoted key. -/
def render_exn : PyExn → String
  | PyExn.keyError k => apos ++ k ++ apos
  | PyExn.typeError m => m
  | PyExn.valueError m => m
  | PyExn.jsonError m => m

/-- Key equality for dictionary access with a string key. -/
def py_key_eq (k : PyVal) (s : String) : Bool :=
  match k with
  | PyVal.str t => t == s
  | _ => false

/-- `args[k]`: raises `KeyError` on a missing key and `TypeError` when the
value is not a mapping.  The last binding of a duplicated key wins, as in a
Python dict display. -/
def py_sub (args : PyVal) (k : String) : Except PyExn PyVal :=
  match args with
  | PyVal.dict kvs =>
    match kvs.reverse.find? (fun kv => py_key_eq kv.1 k) with
    | some kv => Except.ok kv.2
    | Option.none => Except.error (PyExn.keyError k)
  | _ => Except.error (PyExn.typeError "object is not subscriptable")

/-- `args.get(k)` (None when missing or when the receiver is not a dict —
the dispatcher only reaches `.get` after a successful subscript). -/
def py_getO (args : PyVal) (k : String) : Option PyVal :=
  match args with
  | PyVal.dict kvs => (kvs.reverse.find? (fun kv => py_key_eq kv.1 k)).map Prod.snd
  | _ => Option.none

/-- `args.get(k, dflt)`. -/
def py_getD (args : PyVal) (k : String) (dflt : PyVal) : PyVal :=
  (py_getO args k).getD dflt

/-- Python truthiness. -/
def truthy : PyVal → Bool
  | PyVal.str s => !(s == "")
  | PyVal.int n => !(n == 0)
  | PyVal.bool b => b
  | PyVal.none => false
  | PyVal.list xs => !xs.isEmpty
  | PyVal.dict kvs => !kvs.isEmpty

/-- `str(v)`; the display of containers is abstracted, no theorem
depends on it. -/
def py_to_string : PyVal → String
  | PyVal.str s => s
  | PyVal.int n => toString n
  | PyVal.bool b => if b then "True" else "False"
  | PyVal.none => "None"
  | PyVal.list _ => "[...]"
  | PyVal.dict _ => "(...)"

/-- A nonempty all-digit run as a number. -/
def digits_to_nat (cs : List Char) : Option Nat :=
  if !cs.isEmpty && cs.all Char.isDigit then
    some (cs.foldl (fun a c => 10 * a + (c.toNat - 48)) 0)
  else Option.none

/-- `int(s)` on a string: surrounding whitespace allowed, optional sign. -/
def str_to_int (s : String) : Option Int :=
  match trimB s.data with
  | [] => Option.none
  | c :: rest =>
    if c = '-' then (digits_to_nat rest).map (fun n => -(n : Int))
    else if c = '+' then (digits_to_nat rest).map (fun n => (n : Int))
    else (digits_to_nat (c :: rest)).map (fun n => (n : Int))

/-- `int(v)`: ints and bools pass, numeric strings are parsed, anything
else raises (modelled as `Option.none`, which each caller handles as the
code does). -/
def py_to_int : PyVal → Option Int
  | PyVal.int n => some n
  | PyVal.bool b => some (if b then 1 else 0)
  | PyVal.str s => str_to_int s
  | _ => Option.none

/-- Ints and bools only — the values Python would let through a numeric
comparison such as `limit > 0` without raising `TypeError`. -/
def py_int_like : PyVal → Option Int
  | PyVal.int n => some n
  | PyVal.bool b => some (if b then 1 else 0)
  | _ => Option.none

/-- `s.strip()` (on the JSON whitespace set, see the header). -/
def strip_str (s : String) : String := String.mk (trimB s.data)

/-! ## Messages, tool calls, events, state, oracles -/

/-- A tool-call request produced by the backend: opaque id, tool name, raw
argument payload. -/
structure ToolCall where
  id : String
  name : String
  arguments : String
deriving DecidableEq

/-- A conversation message. -/
inductive Msg where
  | system (content : String)
  | user (content : String)
  | assistant (content : Option String) (tool_calls : List ToolCall)
  | tool (tool_call_id : String) (content : String)
deriving DecidableEq

/-- One backend completion: either an assistant reply or a raised API
error. -/
inductive BackendRes where
  | reply (content : Option String) (tool_calls : List ToolCall)
  | failure (msg : String)

/-- OS process liveness as seen through `psutil`: `absent` covers both a
missing pid and the `NoSuchProcess` race. -/
inductive Liveness where
  | absent
  | zombie
  | alive
deriving DecidableEq

/-- Outcome of a foreground `subprocess.run`: combined output, or a raised
exception (timeout etc.). -/
inductive ShellRes where
  | ok (out : String)
  | exn (msg : String)

/-- Outcome of launching a background command: the `echo $!` stdout, a
nonzero exit with stderr, or a raised exception. -/
inductive SpawnRes where
  | ok (stdout : String)
  | fail (stderr : String)
  | exn (msg : String)

/-- Instrumentation events recorded by the model at the call sites of the
external capabilities (one event per backend request, per foreground shell
execution, per background spawn, per sleep). -/
inductive Ev where
  | apiCall
  | shellExec (cmd : String)
  | shellSpawn (cmd : String)
  | slept (seconds : Int)
deriving DecidableEq

/-- A tracked background job (`JobManager` entry). -/
structure Job where
  cmd : String
  log : String
  start_time : Nat
  status : String
deriving DecidableEq

/-- A validated todo item. -/
structure TodoItem where
  content : String
  status : String
  activeForm : String
deriving DecidableEq

/-- Mutable process state threaded through the model: an interaction
counter, the filesystem view, the job registry, the todo list, and the
event trace (most recent event first). -/
structure St where
  tick : Nat
  files : List (String × String)
  dirs : List String
  jobs : List (Int × Job)
  todos : List TodoItem
  trace : List Ev
deriving DecidableEq

/-- Allowed-tool specification of an agent type: the wildcard or an
explicit set of tool names. -/
inductive ToolSpec where
  | all
  | only (names : List String)

/-- Modelled from the spec: an `AgentTypeDescriptor` of the agent-type
registry (`tasks/agent_types.py`, absent from `src/`) is a name, a
system-prompt fragment and an allowed-tool specification. -/
structure AgentType where
  prompt : String
  tools : ToolSpec

/-- Modelled from the spec: the static agent-type registry, passed as a
parameter since its concrete content is not in `src/`. -/
abbrev Registry := List (String × AgentType)

/-- The fixed external world: completion backend, shell, spawner, process
liveness, clock, dataset search and the skill store (`skills/loader.py` is
absent from `src/`; per the spec it maps a name to a block of
instructional text), plus the resolved working directory. -/
structure Sys where
  workdir : List String
  backend : Nat → List Msg → BackendRes
  shell : Nat → String → ShellRes
  spawn : Nat → String → SpawnRes
  live : Nat → Int → Liveness
  now : Nat → Nat
  search : Nat → String → Int → String
  skills : List (String × String)

/-- Advance the interaction counter (each consultation of an oracle). -/
def bump (st : St) : St := { st with tick := st.tick + 1 }

/-- Record an instrumentation event. -/
def pushEv (e : Ev) (st : St) : St := { st with trace := e :: st.trace }

/-- Result of a tool execution: a returned string or a propagated Python
exception; both carry the state, since side effects performed before a
raise persist. -/
abbrev TRes := Except (PyExn × St) (String × St)

/-! ## Tool names and the allowed-tool filter (`tools/base.py`)

Tool schemas are reduced to their names: the only field the core reads
from a schema is `t["function"]["name"]`. -/

/-- The names of `BASE_TOOLS`, in declaration order. -/
def BASE_TOOL_NAMES : List String :=
  ["bash", "read_file", "write_file", "edit_file", "TodoWrite", "wait"]

/-- `ALL_TOOLS = BASE_TOOLS + [TASK_TOOL, SKILL_TOOL]`. -/
def ALL_TOOL_NAMES : List String := BASE_TOOL_NAMES ++ ["Task", "Skill"]

/-- `get_tools_for_agent`: wildcard grants every tool; an explicit set
filters the base toolset (so `Task` and `Skill` are never granted to a
restricted role); an unknown agent type defaults to the wildcard. -/
def get_tools_for_agent (reg : Registry) (agent_type : String) : List String :=
  match reg.lookup agent_type with
  | Option.none => ALL_TOOL_NAMES
  | some cfg =>
    match cfg.tools with
    | ToolSpec.all => ALL_TOOL_NAMES
    | ToolSpec.only allowed => BASE_TOOL_NAMES.filter (fun n => allowed.contains n)

/-! ## Path resolution (`safe_path` in `tools/impl.py`) -/

/-- Resolve path segments against a base: empty and `.` segments vanish,
`..` pops (staying at the root when already there), as `Path.resolve()`
does without symlinks. -/
def resolve_segs : List String → List String → List String
  | acc, [] => acc
  | acc, s :: rest =>
    if s = "" || s = "." then resolve_segs acc rest
    else if s = ".." then resolve_segs acc.dropLast rest
    else resolve_segs (acc ++ [s]) rest

/-- Render resolved segments as an absolute path string. -/
def render_segs (segs : List String) : String :=
  "/" ++ String.intercalate "/" segs

/-- Split on `/` separators (the behaviour of `str.split("/")`). -/
def split_slash_go (acc : List Char) : List Char → List String
  | [] => [String.mk acc.reverse]
  | c :: rest =>
    if c = '/' then String.mk acc.reverse :: split_slash_go [] rest
    else split_slash_go (c :: acc) rest

/-- `p.split("/")`. -/
def str_split_slash (s : String) : List String := split_slash_go [] s.data

/-- `s.startswith(pre)`. -/
def str_starts_with (s pre : String) : Bool := pre.data.isPrefixOf s.data

/-- `safe_path`: resolve `WORKDIR / p` and require the rendered result to
be a string-prefix of the rendered workdir, raising `ValueError`
otherwise — the check is the same textual `startswith` the code performs. -/
def safe_path (wd : List String) (p : String) : Except String (List String) :=
  let segs :=
    if str_starts_with p "/" then resolve_segs [] (str_split_slash p)
    else resolve_segs wd (str_split_slash p)
  if str_starts_with (render_segs segs) (render_segs wd) then Except.ok segs
  else Except.error ("Path escapes workspace: " ++ p)

/-! ## Job tracker (`tools/job_manager.py`) -/

/-- `JobManager.add_job`: coerce the pid to an integer key; a non-integer
pid is logged and never inserted.  Registering an existing pid overwrites
its entry in place, as assignment into a dict does. -/
def add_job (pidStr : String) (cmd log : String) (t : Nat) (st : St) : St :=
  match str_to_int pidStr with
  | Option.none => st
  | some pid =>
    let j : Job := { cmd := cmd, log := log, start_time := t, status := "running" }
    if (st.jobs.map Prod.fst).contains pid then
      { st with jobs := st.jobs.map (fun e => if e.1 = pid then (pid, j) else e) }
    else
      { st with jobs := st.jobs ++ [(pid, j)] }

/-- ASCII upper-casing (`str.upper()` on the ASCII statuses used here). -/
def str_upper (s : String) : String := String.mk (s.data.map Char.toUpper)

/-- ASCII lower-casing (`str.lower()` on the ASCII statuses used here). -/
def str_lower (s : String) : String := String.mk (s.data.map Char.toLower)

/-- One line of the job summary. -/
def job_line (pid : Int) (status : String) (elapsed : Nat) (log cmd : String) : String :=
  let em := elapsed / 60
  let es := elapsed % 60
  let cmd30 := cmd.take 30
  let stU := str_upper status
  s!"[PID {pid}] Status: {stU} | Time: {em}m {es}s | Log: {log} | Cmd: {cmd30}..."

/-- `JobManager.check_jobs`: render one line per job from freshly queried
liveness (absent process means done, zombie state means zombie, otherwise
running) and latch the stored status to done once done is observed.  The
liveness oracle is indexed by the polling instant `st.tick`. -/
def check_jobs (sys : Sys) (st : St) : String × St :=
  if st.jobs.isEmpty then ("No background jobs running.", st)
  else
    let t := st.tick
    let nowv := sys.now t
    let processed := st.jobs.map (fun e =>
      let pid := e.1
      let info := e.2
      let status :=
        match sys.live t pid with
        | Liveness.absent => "done"
        | Liveness.zombie => "zombie"
        | Liveness.alive => "running"
      let elapsed := nowv - info.start_time
      let line := job_line pid status elapsed info.log info.cmd
      let newStatus := if status = "done" && !(info.status == "done") then "done" else info.status
      (line, (pid, { info with status := newStatus })))
    (String.intercalate "\n" (processed.map Prod.fst),
      bump { st with jobs := processed.map Prod.snd })

/-! ## Shell, wait, filesystem, search, skill handlers (`tools/impl.py`) -/

/-- The blocked-substring test of `run_bash`. -/
def dangerous (cmd : String) : Bool :=
  contains_sub ("rm -rf /".data) cmd.data ||
  contains_sub ("sudo".data) cmd.data ||
  contains_sub ("shutdown".data) cmd.data

/-- `run_bash`: the dangerous-command check runs before the `try` block
(and its substring test raises `TypeError` on a non-string command);
foreground commands run the shell oracle, background commands run the
spawner and register the job; every exception inside the `try` becomes an
`Error:` string. -/
def run_bash (sys : Sys) (cmdV : PyVal) (bg : Bool) (st : St) : TRes :=
  match cmdV with
  | PyVal.str cmd =>
    if dangerous cmd then Except.ok ("Error: Dangerous command", st)
    else if bg then
      let ts := sys.now st.tick
      let log_file := s!"nohup_{ts}.log"
      let bg_cmd := s!"nohup {cmd} > {log_file} 2>&1 & echo $!"
      let st1 := bump (pushEv (Ev.shellSpawn bg_cmd) st)
      match sys.spawn st.tick bg_cmd with
      | SpawnRes.exn m => Except.ok (s!"Error: {m}", st1)
      | SpawnRes.fail stderr => Except.ok (s!"Error starting background job: {stderr}", st1)
      | SpawnRes.ok out =>
        let pid := strip_str out
        let st2 := add_job pid cmd log_file (sys.now st1.tick) st1
        Except.ok (s!"Background task started. PID: {pid}\nLog: {log_file}\nSystem Note: I have registered this job. I will update you on its status in every turn.", st2)
    else
      let st1 := bump (pushEv (Ev.shellExec cmd) st)
      match sys.shell st.tick cmd with
      | ShellRes.exn m => Except.ok (s!"Error: {m}", st1)
      | ShellRes.ok out =>
        let o := strip_str out
        Except.ok ((if o = "" then "(no output)" else o).take 50000, st1)
  | _ => Except.error (PyExn.typeError "argument should be a str", st)

/-- `run_wait`: coerce the argument with `int()` (fallback 10), clamp to
an hour, then sleep — `time.sleep` raises `ValueError` on a negative
duration, and that raise is not caught by the handler. -/
def run_wait (secV : PyVal) (st : St) : TRes :=
  let n0 := (py_to_int secV).getD 10
  let n := if n0 > 3600 then 3600 else n0
  if n < 0 then Except.error (PyExn.valueError "sleep length must be non-negative", st)
  else
    let st1 := bump (pushEv (Ev.slept n) st)
    Except.ok (s!"SUCCESS: System time advanced by {n} seconds.\nCurrent Status: The wait is over. You should now verify the status of your background jobs using check_jobs output or read_file on logs.", st1)

/-- `readlines`: split keeping the newline terminators. -/
def lines_go (acc : List Char) : List Char → List (List Char)
  | [] => if acc.isEmpty then [] else [acc.reverse]
  | c :: rest =>
    if c = '\n' then (c :: acc).reverse :: lines_go [] rest
    else lines_go (c :: acc) rest

/-- `f.readlines()` of a decoded file content. -/
def readlines (s : String) : List String := (lines_go [] s.data).map String.mk

/-- The last `n` characters of a string (`s[-n:]`). -/
def take_last (s : String) (n : Nat) : String :=
  String.mk (s.data.drop (s.data.length - n))

/-- The assembled `run_read_file` output: header with the file name, meta
line with the total line count and the view description, then the selected
content. -/
def read_output (path : String) (total : Nat) (view_info : String) (content2 : String) : String :=
  "== File: " ++ path ++ " ==\n== Meta: Total " ++ toString total ++
    " lines " ++ view_info ++ " ==\n== Content Start ==\n" ++ content2 ++ "\n== Content End =="

/-- `run_read_file`: security check, existence and file check, then the
limit slicing — `None` reads everything, a positive limit reads the first
lines, a negative limit reads the last `|limit|` lines (tail mode) — and
the assembled output with the total line count, truncated around 50000
characters.  Every failure path returns an error string (the exact quote
characters of the Python messages are elided). -/
def run_read_file (wd : List String) (st : St) (pathV : PyVal) (limitV : Option PyVal) : String :=
  match pathV with
  | PyVal.str path =>
    match safe_path wd path with
    | Except.error e => s!"Error: Invalid path security check - {e}"
    | Except.ok segs =>
      let rp := render_segs segs
      match st.files.lookup rp with
      | some content =>
        let lines := readlines content
        let total := lines.length
        let view : Option (String × String) :=
          match limitV with
          | Option.none => some (String.join lines, "(All content)")
          | some lv =>
            match py_int_like lv with
            | Option.none => Option.none
            | some l =>
              if l > 0 then some (String.join (lines.take l.toNat), s!"(First {l} lines)")
              else if l < 0 then
                let start := (Int.ofNat total + l).toNat
                let labs := l.natAbs
                some (String.join (lines.drop start), s!"(Last {labs} lines - TAIL MODE)")
              else some ("", "")
        match view with
        | Option.none => "Error reading file: unsupported comparison"
        | some (content2, view_info) =>
          let output := read_output path total view_info content2
          if output.length > 50000 then
            output.take 25000 ++ "\n...[SYSTEM TRUNCATED DUE TO LENGTH]...\n" ++ take_last output 25000
          else output
      | Option.none =>
        if st.dirs.contains rp then
          s!"Error: {path} is a directory, not a file. Use ls -la instead."
        else s!"Error: File {path} does not exist."
  | _ => "Error: Invalid path security check - unsupported operand"

/-- `run_search_datasets`: the Hugging Face query and the rendering of its
results happen inside one catch-all `try` against external state, modelled
as a single oracle producing the returned string. -/
def run_search (sys : Sys) (qV limV : PyVal) (st : St) : String × St :=
  let q := py_to_string qV
  let lim := (py_to_int limV).getD 5
  (sys.search st.tick q lim, bump st)

/-- First-occurrence-only replacement (`str.replace(old, new, 1)`),
with fuel as in `replace_all_fuel`. -/
def replace_first_fuel (p r : List Char) : Nat → List Char → List Char
  | 0, cs => cs
  | _ + 1, [] => []
  | f + 1, c :: cs =>
    if decide (p ≠ []) && (c :: cs).take p.length == p then
      r ++ (c :: cs).drop p.length
    else c :: replace_first_fuel p r f cs

/-- `text.replace(old_text, new_text, 1)`. -/
def replace_first (p r cs : List Char) : List Char := replace_first_fuel p r cs.length cs

/-- `run_write`: create or overwrite (or append to) the file; everything
is inside a catch-all, so failures return `Error:` strings. -/
def run_write (wd : List String) (st : St) (pathV contentV : PyVal) (app : Bool) : String × St :=
  match pathV with
  | PyVal.str path =>
    match safe_path wd path with
    | Except.error e => (s!"Error: {e}", st)
    | Except.ok segs =>
      let rp := render_segs segs
      if st.dirs.contains rp then ("Error: Is a directory", st)
      else
        match contentV with
        | PyVal.str content =>
          let old := ((st.files.lookup rp).getD "")
          let existed := (st.files.lookup rp).isSome
          let newContent := if app then old ++ content else content
          let files2 :=
            if existed then st.files.map (fun e => if e.1 = rp then (rp, newContent) else e)
            else st.files ++ [(rp, newContent)]
          let op := if app then "Appended to" else "Wrote"
          let n := content.length
          (s!"{op} {path} ({n} bytes)", { st with files := files2 })
        | _ => ("Error: write argument must be str", st)
  | _ => ("Error: unsupported operand type", st)

/-- `run_edit`: read, require the exact old text, replace its first
occurrence, write back; failures return `Error:` strings. -/
def run_edit (wd : List String) (st : St) (pathV oldV newV : PyVal) : String × St :=
  match pathV, oldV, newV with
  | PyVal.str path, PyVal.str old_text, PyVal.str new_text =>
    match safe_path wd path with
    | Except.error e => (s!"Error: {e}", st)
    | Except.ok segs =>
      let rp := render_segs segs
      match st.files.lookup rp with
      | Option.none => (s!"Error: No such file {path}", st)
      | some text =>
        if !contains_sub old_text.data text.data then (s!"Error: Text not found in {path}", st)
        else
          let newText := String.mk (replace_first old_text.data new_text.data text.data)
          let files2 := st.files.map (fun e => if e.1 = rp then (rp, newText) else e)
          (s!"Edited {path}", { st with files := files2 })
  | _, _, _ => ("Error: replace arguments must be str", st)

/-- `run_skill`: load a skill from the store or report the available
names. -/
def run_skill (skills : List (String × String)) (nameV : PyVal) : String :=
  let skName := py_to_string nameV
  let found := match nameV with
    | PyVal.str n => skills.lookup n
    | _ => Option.none
  match found with
  | some content =>
    "<skill-loaded name=\"" ++ skName ++ "\">\n" ++ content ++
      "\n</skill-loaded>\n\nFollow the instructions in the skill above to complete the task."
  | Option.none =>
    let names := skills.map Prod.fst
    let avail := if names.isEmpty then "none" else String.intercalate ", " names
    s!"Error: Unknown skill {skName}. Available: {avail}"

/-! ## Todo manager (`tools/todo_manager.py`) -/

/-- The validation loop of `TodoManager.update`: per-item checks raise at
the offending index; the number of `in_progress` items is accumulated for
the post-loop check. -/
def todo_validate (i : Nat) : List PyVal → Except String (List TodoItem × Nat)
  | [] => Except.ok ([], 0)
  | item :: rest =>
    match item with
    | PyVal.dict _ =>
      let content := strip_str (py_to_string (py_getD item "content" (PyVal.str "")))
      let status := str_lower (py_to_string (py_getD item "status" (PyVal.str "pending")))
      let active := strip_str (py_to_string (py_getD item "activeForm" (PyVal.str "")))
      if content = "" || active = "" then Except.error s!"Item {i}: content and activeForm required"
      else if !(status = "pending" || status = "in_progress" || status = "completed") then
        Except.error s!"Item {i}: invalid status"
      else
        match todo_validate (i + 1) rest with
        | Except.ok (vs, c) =>
          Except.ok ({ content := content, status := status, activeForm := active } :: vs,
            (if status = "in_progress" then 1 else 0) + c)
        | Except.error e => Except.error e
    | _ => Except.error "object has no attribute get"

/-- `TodoManager.render`. -/
def todo_render (ts : List TodoItem) : String :=
  if ts.isEmpty then "No todos."
  else
    let lines := ts.map (fun t =>
      (if t.status = "completed" then "[x]"
       else if t.status = "in_progress" then "[>]"
       else "[ ]") ++ " " ++ t.content)
    let done := (ts.filter (fun t => t.status = "completed")).length
    let n := ts.length
    String.intercalate "\n" lines ++ s!"\n({done}/{n} done)"

/-- `TodoManager.update`: validate every item, reject the whole update when
more than one is `in_progress`, store the first twenty, render.  The
stored list is assigned only after all checks pass. -/
def todo_update (items : PyVal) : Except String (List TodoItem × String) :=
  match items with
  | PyVal.list l =>
    match todo_validate 0 l with
    | Except.error e => Except.error e
    | Except.ok (vs, c) =>
      if c > 1 then Except.error "Only one task can be in_progress"
      else
        let stored := vs.take 20
        Except.ok (stored, todo_render stored)
  | _ => Except.error "object is not iterable"

/-- `run_todo`: the catch-all wrapper — a `ValueError` from `update`
becomes an `Error:` string and the stored list is untouched. -/
def run_todo (items : PyVal) (st : St) : String × St :=
  match todo_update items with
  | Except.ok (stored, out) => (out, { st with todos := stored })
  | Except.error e => (s!"Error: {e}", st)

/-! ## Tool dispatcher and sub-agent spawner (`execute_tool`, `run_task`)

`run_task` recursively reaches `execute_tool` (a sub-agent may spawn
further sub-agents); the code imposes no depth limit, so the model carries
a recursion-depth fuel `d` that decreases only at a nested `Task`
dispatch.  Exhausted fuel is a model artifact reported as an exception. -/

/-- The role-specific system prompt a sub-agent is seeded with. -/
def sub_system_prompt (sys : Sys) (cfg : AgentType) (agent_type : String) : String :=
  let wd := render_segs sys.workdir
  let pr := cfg.prompt
  s!"You are a {agent_type} subagent at {wd}.\n{pr}\nComplete the task and return a clear, concise summary."

/-- The dispatcher body of `execute_tool` from `tools/impl.py`,
parameterised by the handler used for a nested `Task` dispatch (the one
place where the recursion-depth fuel decreases): dispatch a
(name, arguments) pair to its handler.  Missing required argument keys
raise `KeyError` here, before the handler runs; there is no role-based
filtering of names. -/
def execute_tool_body (sys : Sys)
    (task_handler : String → String → String → St → TRes)
    (name : String) (args : PyVal) (st : St) : TRes :=
  if name = "bash" then
    match py_sub args "command" with
    | Except.error e => Except.error (e, st)
    | Except.ok cmdV =>
      let bg := truthy (py_getD args "background" (PyVal.bool false))
      run_bash sys cmdV bg st
  else if name = "read_file" then
    match py_sub args "path" with
    | Except.error e => Except.error (e, st)
    | Except.ok pv => Except.ok (run_read_file sys.workdir st pv (py_getO args "limit"), st)
  else if name = "search_datasets" then
    match py_sub args "query" with
    | Except.error e => Except.error (e, st)
    | Except.ok qv => Except.ok (run_search sys qv (py_getD args "limit" (PyVal.int 5)) st)
  else if name = "write_file" then
    match py_sub args "path" with
    | Except.error e => Except.error (e, st)
    | Except.ok pv =>
      match py_sub args "content" with
      | Except.error e => Except.error (e, st)
      | Except.ok cv =>
        let app := truthy (py_getD args "append" (PyVal.bool false))
        Except.ok (run_write sys.workdir st pv cv app)
  else if name = "edit_file" then
    match py_sub args "path" with
    | Except.error e => Except.error (e, st)
    | Except.ok pv =>
      match py_sub args "old_text" with
      | Except.error e => Except.error (e, st)
      | Except.ok ov =>
        match py_sub args "new_text" with
        | Except.error e => Except.error (e, st)
        | Except.ok nv => Except.ok (run_edit sys.workdir st pv ov nv)
  else if name = "TodoWrite" then
    match py_sub args "items" with
    | Except.error e => Except.error (e, st)
    | Except.ok iv => Except.ok (run_todo iv st)
  else if name = "Task" then
    match py_sub args "description" with
    | Except.error e => Except.error (e, st)
    | Except.ok dv =>
      match py_sub args "prompt" with
      | Except.error e => Except.error (e, st)
      | Except.ok pv =>
        match py_sub args "agent_type" with
        | Except.error e => Except.error (e, st)
        | Except.ok av =>
          task_handler (py_to_string dv) (py_to_string pv) (py_to_string av) st
  else if name = "Skill" then
    match py_sub args "skill" with
    | Except.error e => Except.error (e, st)
    | Except.ok sv => Except.ok (run_skill sys.skills sv, st)
  else if name = "wait" then
    match py_sub args "seconds" with
    | Except.error e => Except.error (e, st)
    | Except.ok sv => run_wait sv st
  else Except.ok (s!"Unknown tool: {name}", st)

/-- The per-round tool loop of `run_task`, parameterised by the
dispatcher: `json.loads` (strict, no enclosing `try`, so a malformed
payload raises out of the sub-agent), then dispatch, then append the
`tool` message. -/
def run_sub_tools_g (exec : String → PyVal → St → TRes) :
    List ToolCall → List Msg → St → Except (PyExn × St) (List Msg × St)
  | [], msgs, st => Except.ok (msgs, st)
  | tc :: rest, msgs, st =>
    match json_loads true tc.arguments with
    | Option.none => Except.error (PyExn.jsonError "Expecting value", st)
    | some args =>
      match exec tc.name args st with
      | Except.error es => Except.error es
      | Except.ok (output, st2) =>
        run_sub_tools_g exec rest (msgs ++ [Msg.tool tc.id output]) st2

/-- The `while step < MAX_STEPS` loop of `run_task` with `k` rounds left,
parameterised by the dispatcher: one backend request per round (its own
`try` turns an API failure into a returned `Subagent Error` string),
append the reply, return its content when it carries no tool calls,
otherwise execute the calls and continue; when the rounds are exhausted
return the fixed sentinel. -/
def run_task_steps_g (sys : Sys) (exec : String → PyVal → St → TRes) :
    Nat → List Msg → St → TRes
  | 0, _, st => Except.ok ("(subagent step limit reached)", st)
  | k + 1, msgs, st =>
    let st1 := bump (pushEv Ev.apiCall st)
    match sys.backend st.tick msgs with
    | BackendRes.failure e => Except.ok (s!"Subagent Error: {e}", st1)
    | BackendRes.reply content tcs =>
      let msgs1 := msgs ++ [Msg.assistant content tcs]
      if tcs.isEmpty then
        Except.ok ((match content with
          | some c => if c = "" then "(subagent finished)" else c
          | Option.none => "(subagent finished)"), st1)
      else
        match run_sub_tools_g exec tcs msgs1 st1 with
        | Except.error es => Except.error es
        | Except.ok (msgs2, st2) => run_task_steps_g sys exec k msgs2 st2

/-- `run_task` from `tools/impl.py`, parameterised by the dispatcher:
validate the agent type, build the isolated two-message history, resolve
the restricted toolset, and run the bounded sub-loop with
`MAX_STEPS = 10`. -/
def run_task_g (reg : Registry) (sys : Sys) (exec : String → PyVal → St → TRes)
    (_description prompt agent_type : String) (st : St) : TRes :=
  match reg.lookup agent_type with
  | Option.none => Except.ok (s!"Error: Unknown agent type {agent_type}", st)
  | some cfg =>
    run_task_steps_g sys exec 10
      [Msg.system (sub_system_prompt sys cfg agent_type), Msg.user prompt] st

/-- `execute_tool` from `tools/impl.py` at recursion-depth fuel `d`: the
dispatcher body, with a nested `Task` dispatch entering `run_task` at
fuel `d - 1`; exhausted fuel is the model artifact reported as a
`ValueError`. -/
def execute_tool (reg : Registry) (sys : Sys) : Nat → String → PyVal → St → TRes
  | 0 => execute_tool_body sys
      (fun _ _ _ st => Except.error (PyExn.valueError "model recursion fuel exhausted", st))
  | d + 1 => execute_tool_body sys (run_task_g reg sys (execute_tool reg sys d))

/-- `run_task` with the concrete dispatcher at fuel `d`. -/
def run_task (reg : Registry) (sys : Sys) (d : Nat) :
    String → String → String → St → TRes :=
  run_task_g reg sys (execute_tool reg sys d)

/-- The sub-loop with the concrete dispatcher at fuel `d` (the
`agent_type` argument is not consulted by the loop itself). -/
def run_task_steps (reg : Registry) (sys : Sys) (d : Nat) (_agent_type : String) :
    Nat → List Msg → St → TRes :=
  run_task_steps_g sys (execute_tool reg sys d)

/-- The per-round tool loop with the concrete dispatcher at fuel `d`. -/
def run_sub_tools (reg : Registry) (sys : Sys) (d : Nat) :
    List ToolCall → List Msg → St → Except (PyExn × St) (List Msg × St) :=
  run_sub_tools_g (execute_tool reg sys d)


/-! ## The top-level control loop (`agent_loop` in `main.py`) -/

/-- An abstract rendering of `time.strftime` on the clock value. -/
def time_render (t : Nat) : String := s!"time {t}"

/-- The synthetic status message text: current time plus the job summary
plus fixed guidance (quote characters of the original text elided). -/
def status_text (t : Nat) (job_status : String) : String :=
  "\n[SYSTEM STATUS UPDATE]\nCurrent Time: " ++ time_render t ++
    "\nBackground Jobs Status:\n" ++ job_status ++
    "\n----------------\nGuidance: \n1. If jobs are RUNNING, check their logs via read_file.\n2. If you need to wait for them, use the wait tool (do not loop read_file without waiting).\n3. If jobs are DONE, verify the results."

/-- `get_context_injection`: build the status message and perform the
status latching of the `check_jobs` call it makes. -/
def get_context_injection (sys : Sys) (st : St) : String × St :=
  let t := sys.now st.tick
  let cj := check_jobs sys st
  (status_text t cj.1, cj.2)

/-- The diagnostic appended when a tool call raises in the top-level loop. -/
def tool_error_msg (e : PyExn) : String :=
  let m := render_exn e
  s!"Tool Error: {m}. Please correct your arguments format."

/-- The per-turn tool loop of `agent_loop`: each call's `try` covers both
the repair-pipeline parse and the dispatch, so either failure appends the
diagnostic `tool` message instead, and the loop continues with the next
call. -/
def process_tool_calls (reg : Registry) (sys : Sys) (d : Nat) :
    List ToolCall → List Msg → St → List Msg × St
  | [], msgs, st => (msgs, st)
  | tc :: rest, msgs, st =>
    match safe_parse_json tc.arguments with
    | Except.error e =>
      process_tool_calls reg sys d rest
        (msgs ++ [Msg.tool tc.id (tool_error_msg (PyExn.valueError e))]) st
    | Except.ok args =>
      match execute_tool reg sys d tc.name args st with
      | Except.error (e, st2) =>
        process_tool_calls reg sys d rest (msgs ++ [Msg.tool tc.id (tool_error_msg e)]) st2
      | Except.ok (output, st2) =>
        process_tool_calls reg sys d rest (msgs ++ [Msg.tool tc.id output]) st2

/-- `agent_loop`: each iteration sends the persistent history plus one
synthetic status message, appends the assistant reply, returns when the
reply carries no tool calls (or on an API failure), and otherwise appends
the `tool` results and repeats.  The Python loop is unbounded; the fuel
`f` only truncates the model's run and is not part of the embedded code.
The result also carries the list of requests actually sent, newest last. -/
def agent_loop (reg : Registry) (sys : Sys) (d : Nat) :
    Nat → List Msg → St → List Msg × St × List (List Msg)
  | 0, msgs, st => (msgs, st, [])
  | f + 1, msgs, st =>
    let inj := get_context_injection sys st
    let request := msgs ++ [Msg.system inj.1]
    let st1 := inj.2
    let st2 := bump (pushEv Ev.apiCall st1)
    match sys.backend st1.tick request with
    | BackendRes.failure _ => (msgs, st2, [request])
    | BackendRes.reply content tcs =>
      let msgs1 := msgs ++ [Msg.assistant content tcs]
      if tcs.isEmpty then (msgs1, st2, [request])
      else
        let pr := process_tool_calls reg sys d tcs msgs1 st2
        let rec2 := agent_loop reg sys d f pr.1 pr.2
        (rec2.1, rec2.2.1, request :: rec2.2.2)

/-! ## Trace observations -/

/-- Is an event a shell execution (foreground or background spawn)? -/
def is_shell_ev : Ev → Bool
  | Ev.shellExec _ => true
  | Ev.shellSpawn _ => true
  | _ => false

/-- Number of shell executions in a trace. -/
def count_shell (tr : List Ev) : Nat := (tr.filter is_shell_ev).length

/-- Number of backend requests in a trace. -/
def count_api (tr : List Ev) : Nat := (tr.filter (fun e => e == Ev.apiCall)).length

/-- The state carried by a tool-execution result (exceptions keep the
state reached before the raise). -/
def res_st : TRes → St
  | Except.ok (_, s) => s
  | Except.error (_, s) => s

/-- The trace of a tool-execution result. -/
def res_trace (r : TRes) : List Ev := (res_st r).trace

/-! ## Fenced code blocks -/

/-- Opening fence line. -/
def fence_pre : String := String.mk [btick, btick, btick, '\n']

/-- Closing fence line. -/
def fence_post : String := String.mk ['\n', btick, btick, btick]

/-- Wrap a payload in a fenced code block. -/
def wrap_fence (p : String) : String := fence_pre ++ p ++ fence_post

/-! ## Concrete fixtures used by witnesses and counterexamples -/

/-- The empty process state. -/
def st0 : St := { tick := 0, files := [], dirs := [], jobs := [], todos := [], trace := [] }

/-- A registry with one restricted role that may only read files. -/
def regR : Registry :=
  [("reader", { prompt := "You explore and read files.", tools := ToolSpec.only ["read_file"] })]

/-- A backend that always requests a `bash` tool call (despite whatever
toolset was offered), over otherwise inert oracles. -/
def sys_bash : Sys :=
  { workdir := ["ws"],
    backend := fun _ _ => BackendRes.reply Option.none
      [{ id := "1", name := "bash", arguments := "\x7b\"command\": \"echo hi\"\x7d" }],
    shell := fun _ _ => ShellRes.ok "hi",
    spawn := fun _ _ => SpawnRes.ok "42",
    live := fun _ _ => Liveness.alive,
    now := fun t => 100 + t,
    search := fun _ _ _ => "(no results)",
    skills := [] }

/-- A backend that always requests a `read_file` call with valid
arguments. -/
def sys_read : Sys :=
  { sys_bash with backend := (fun _ _ =>
      BackendRes.reply Option.none
        [{ id := "1", name := "read_file", arguments := "\x7b\"path\": \"a.txt\"\x7d" }]) }

/-- A backend whose first reply carries a tool call with unparseable
argument text. -/
def sys_badargs : Sys :=
  { sys_bash with backend := (fun _ _ =>
      BackendRes.reply Option.none [{ id := "1", name := "bash", arguments := "\x7b" }]) }

/-- A backend that always requests a harmless unknown tool with an empty
argument mapping. -/
def sys_noop : Sys :=
  { sys_bash with backend := (fun _ _ =>
      BackendRes.reply Option.none
        [{ id := "1", name := "noop_tool", arguments := "\x7b\x7d" }]) }

/-- A state with one tracked job, pid 5, still marked running. -/
def stJ : St :=
  { st0 with jobs := [(5, { cmd := "sleep 1", log := "l.log", start_time := 50, status := "running" })] }

/-- Liveness that reports pid 5 gone at the first poll and alive again (a
recycled pid) at every later poll. -/
def sys_recycle : Sys :=
  { sys_bash with live := fun t _ => if t = 0 then Liveness.absent else Liveness.alive }

/-- A state with one five-line file inside the workspace. -/
def stF : St := { st0 with files := [("/ws/a.txt", "l1\nl2\nl3\nl4\nl5")] }

/-- The C5 counterexample payload: a valid JSON mapping whose string value
contains a fenced brace group. -/
def cex5 : String := "\x7b\"content\": \"``` \x7b1: 2\x7d ```\"\x7d"

/-- The C6 counterexample payload: a valid JSON mapping whose string value
contains a closing brace followed by three backticks. -/
def cex6 : String := "\x7b\"a\": \"\x7d ```\"\x7d"

/-- A plain valid payload for witnesses. -/
def wit_payload : String := "\x7b\"a\": 1, \"b\": \"x\"\x7d"

/-- A two-item todo update with both items in progress. -/
def two_in_progress (c1 a1 c2 a2 : String) : PyVal :=
  PyVal.list
    [PyVal.dict [(PyVal.str "content", PyVal.str c1), (PyVal.str "status", PyVal.str "in_progress"),
      (PyVal.str "activeForm", PyVal.str a1)],
     PyVal.dict [(PyVal.str "content", PyVal.str c2), (PyVal.str "status", PyVal.str "in_progress"),
      (PyVal.str "activeForm", PyVal.str a2)]]

/-! ## Predicates for loop theorems -/

/-- Does dispatch find the required key? -/
def has_key (args : PyVal) (k : String) : Bool :=
  match py_sub args k with
  | Except.ok _ => true
  | Except.error _ => false

/-- Does dispatch find the required key bound to a string? -/
def has_str_key (args : PyVal) (k : String) : Bool :=
  match py_sub args k with
  | Except.ok (PyVal.str _) => true
  | _ => false

/-- Is a `wait` argument safe (its `int()` coercion, when it succeeds,
is non-negative, so the clamped sleep cannot raise)? -/
def wait_arg_ok (v : PyVal) : Bool :=
  match py_to_int v with
  | Option.none => true
  | some n => decide (0 ≤ n)

/-- A (name, arguments) pair whose dispatch provably returns instead of
raising: the required keys are present (with a string command for `bash`
and a non-negative `wait` duration), and the name is not `Task` (a
sub-agent can propagate exceptions). -/
def safe_call (name : String) (args : PyVal) : Bool :=
  if name = "bash" then has_str_key args "command"
  else if name = "read_file" then has_key args "path"
  else if name = "search_datasets" then has_key args "query"
  else if name = "write_file" then has_key args "path" && has_key args "content"
  else if name = "edit_file" then
    has_key args "path" && has_key args "old_text" && has_key args "new_text"
  else if name = "TodoWrite" then has_key args "items"
  else if name = "Task" then false
  else if name = "Skill" then has_key args "skill"
  else if name = "wait" then
    match py_sub args "seconds" with
    | Except.ok v => wait_arg_ok v
    | Except.error _ => false
  else true

/-- A backend whose every reply carries at least one tool call, all with
strict-parseable argument payloads naming safely dispatchable tools (the
sub-agent never terminates naturally). -/
def always_tool_calls (sys : Sys) : Prop :=
  ∀ i msgs, ∃ c tcs, sys.backend i msgs = BackendRes.reply c tcs ∧ tcs ≠ [] ∧
    ∀ tc ∈ tcs, ∃ args, json_loads true tc.arguments = some args ∧ safe_call tc.name args = true

/-- The base tools, other than `bash`, that never touch the shell. -/
def NONSHELL : List String := ["read_file", "write_file", "edit_file", "TodoWrite", "wait"]

/-- The state carried by a sub-tool-loop result. -/
def sub_res_st : Except (PyExn × St) (List Msg × St) → St
  | Except.ok (_, s) => s
  | Except.error (_, s) => s

/-- A backend all of whose requested tool calls name shell-free base
tools (what a model restricted to such a toolset is supposed to emit). -/
def only_nonshell (sys : Sys) : Prop :=
  ∀ i msgs c tcs, sys.backend i msgs = BackendRes.reply c tcs →
    ∀ tc ∈ tcs, tc.name ∈ NONSHELL

/-- Is a message an assistant reply or a tool result (the only roles the
persistent history may gain during a turn)? -/
def is_assistant_or_tool : Msg → Bool
  | Msg.assistant _ _ => true
  | Msg.tool _ _ => true
  | _ => false

/-! # Theorems

## Whitespace and substring groundwork -/

theorem wsTake_append_skipWsL (cs : List Char) : wsTake cs ++ skipWsL cs = cs := by
  unfold wsTake skipWsL
  exact List.takeWhile_append_dropWhile isWsC cs

theorem mem_wsTake_ws {cs : List Char} {c : Char} (h : c ∈ wsTake cs) : isWsC c = true :=
  List.mem_takeWhile_imp h

theorem skipWsL_nil : skipWsL [] = [] := rfl

theorem skipWsL_cons_not_ws {c : Char} {cs : List Char} (h : isWsC c = false) :
    skipWsL (c :: cs) = c :: cs := by
  simp [skipWsL, List.dropWhile_cons, h]

theorem skipWsL_cons_ws {c : Char} {cs : List Char} (h : isWsC c = true) :
    skipWsL (c :: cs) = skipWsL cs := by
  simp [skipWsL, List.dropWhile_cons, h]

theorem skipWsL_append_of_allWs {w : List Char} (cs : List Char)
    (h : ∀ c ∈ w, isWsC c = true) : skipWsL (w ++ cs) = skipWsL cs := by
  induction w with
  | nil => simp
  | cons c w ih =>
    have hc : isWsC c = true := h c (by simp)
    simp only [List.cons_append]
    rw [skipWsL_cons_ws hc]
    exact ih (fun x hx => h x (by simp [hx]))

theorem skipWsL_append_cons {a : List Char} (b : List Char) {c : Char} {cs : List Char}
    (h : skipWsL a = c :: cs) : skipWsL (a ++ b) = c :: (cs ++ b) := by
  induction a with
  | nil => simp [skipWsL] at h
  | cons x xs ih =>
    by_cases hx : isWsC x = true
    · rw [skipWsL_cons_ws hx] at h
      simp only [List.cons_append]
      rw [skipWsL_cons_ws hx]
      exact ih h
    · have hx' : isWsC x = false := by
        cases hxx : isWsC x
        · rfl
        · exact absurd hxx hx
      rw [skipWsL_cons_not_ws hx'] at h
      cases h
      simp only [List.cons_append]
      rw [skipWsL_cons_not_ws hx']

theorem dropEndWs_spec (cs : List Char) :
    ∃ w, cs = dropEndWs cs ++ w ∧ ∀ c ∈ w, isWsC c = true := by
  refine ⟨(wsTake cs.reverse).reverse, ?_, ?_⟩
  · have h := wsTake_append_skipWsL cs.reverse
    have h2 : cs = (wsTake cs.reverse ++ skipWsL cs.reverse).reverse := by
      rw [h]; simp
    conv_lhs => rw [h2]
    rw [List.reverse_append]
    rfl
  · intro c hc
    exact mem_wsTake_ws (List.mem_reverse.mp hc)

theorem dropEndWs_snoc_not_ws {xs : List Char} {c : Char} (h : isWsC c = false) :
    dropEndWs (xs ++ [c]) = xs ++ [c] := by
  simp [dropEndWs, List.dropWhile_cons, h]

theorem trimB_eq_self {c d : Char} (mid : List Char) (hc : isWsC c = false)
    (hd : isWsC d = false) : trimB (c :: (mid ++ [d])) = c :: (mid ++ [d]) := by
  unfold trimB
  rw [skipWsL_cons_not_ws hc]
  have : c :: (mid ++ [d]) = (c :: mid) ++ [d] := by simp
  rw [this, dropEndWs_snoc_not_ws hd]

theorem contains_sub_nil_pat (l : List Char) : contains_sub [] l = true := by
  cases l <;> simp [contains_sub, List.isPrefixOf]

theorem contains_sub_append_left {p t : List Char} (x : List Char)
    (h : contains_sub p t = true) : contains_sub p (x ++ t) = true := by
  induction x with
  | nil => simpa using h
  | cons c xs ih => simp [contains_sub, ih]

theorem contains_sub_append_right {p t : List Char} (y : List Char)
    (h : contains_sub p t = true) : contains_sub p (t ++ y) = true := by
  induction t with
  | nil =>
    simp only [contains_sub] at h
    have hp : p = [] := eq_of_beq h
    subst hp
    exact contains_sub_nil_pat y
  | cons c t ih =>
    simp only [contains_sub, Bool.or_eq_true] at h
    rcases h with h | h
    · have hpre : p <+: c :: t := List.isPrefixOf_iff_prefix.mp h
      have : p <+: (c :: t) ++ y := hpre.trans ((c :: t).prefix_append y)
      simp only [List.cons_append, contains_sub, Bool.or_eq_true]
      exact Or.inl (List.isPrefixOf_iff_prefix.mpr (by simpa using this))
    · simp only [List.cons_append, contains_sub, Bool.or_eq_true]
      exact Or.inr (ih h)

theorem contains_sub_of_split {p m : List Char} (x y : List Char)
    (h : contains_sub p m = true) : contains_sub p (x ++ m ++ y) = true := by
  rw [List.append_assoc]
  exact contains_sub_append_left x (contains_sub_append_right y h)

theorem contains_sub_false_split {p m : List Char} (x y : List Char)
    (h : contains_sub p (x ++ m ++ y) = false) : contains_sub p m = false := by
  cases hm : contains_sub p m
  · rfl
  · rw [contains_sub_of_split x y hm] at h; cases h

theorem contains_sub_tail {p : List Char} {c : Char} {rest : List Char}
    (h : contains_sub p (c :: rest) = false) : contains_sub p rest = false := by
  simp only [contains_sub, Bool.or_eq_false_iff] at h
  exact h.2

theorem contains_sub_trimB (p cs : List Char)
    (h : contains_sub p cs = false) : contains_sub p (trimB cs) = false := by
  obtain ⟨w, hw, _⟩ := dropEndWs_spec (skipWsL cs)
  have hx : cs = wsTake cs ++ (trimB cs ++ w) := by
    conv_lhs => rw [← wsTake_append_skipWsL cs]
    rw [hw]; rfl
  apply contains_sub_false_split (wsTake cs) w
  rw [List.append_assoc, ← hx]
  exact h

/-! ## Parser groundwork: string bodies -/

theorem str_ok_false (c : Char) : str_ok false c = true := rfl

theorem parse_str_mono_len :
    ∀ k, ∀ cs : List Char, cs.length ≤ k → ∀ x, parse_str_body true cs = some x →
      parse_str_body false cs = some x := by
  intro k
  induction k with
  | zero =>
    intro cs hl x h
    have hnil : cs = [] := List.length_eq_zero.mp (Nat.le_zero.mp hl)
    subst hnil
    simp [parse_str_body] at h
  | succ k ih =>
    intro cs hl x h
    match cs with
    | [] => simp [parse_str_body] at h
    | [c] =>
      rw [parse_str_body.eq_2] at h ⊢
      by_cases hq : c = '"'
      · rw [if_pos hq] at h ⊢; exact h
      · rw [if_neg hq] at h ⊢
        by_cases hb : c = '\\'
        · rw [if_pos hb] at h; exact absurd h (by simp)
        · rw [if_neg hb] at h ⊢
          rw [str_ok_false, if_pos rfl]
          by_cases hok : str_ok true c = true
          · rw [if_pos hok] at h
            simp [parse_str_body] at h
          · rw [if_neg hok] at h; exact absurd h (by simp)
    | c :: e :: rest2 =>
      rw [parse_str_body.eq_3] at h ⊢
      by_cases hq : c = '"'
      · rw [if_pos hq] at h ⊢; exact h
      · rw [if_neg hq] at h ⊢
        by_cases hb : c = '\\'
        · rw [if_pos hb] at h ⊢
          cases hesc : esc_char e with
          | none => rw [hesc] at h; exact absurd h (by simp)
          | some d =>
            rw [hesc] at h
            cases hrec : parse_str_body true rest2 with
            | none => rw [hrec] at h; exact absurd h (by simp)
            | some pr =>
              rw [hrec] at h
              have hlen : rest2.length ≤ k := by simp only [List.length_cons] at hl; omega
              rw [ih rest2 hlen pr hrec]
              exact h
        · rw [if_neg hb] at h ⊢
          rw [str_ok_false, if_pos rfl]
          by_cases hok : str_ok true c = true
          · rw [if_pos hok] at h
            cases hrec : parse_str_body true (e :: rest2) with
            | none => rw [hrec] at h; exact absurd h (by simp)
            | some pr =>
              rw [hrec] at h
              have hlen : (e :: rest2).length ≤ k := by
                simp only [List.length_cons] at hl ⊢; omega
              rw [ih (e :: rest2) hlen pr hrec]
              exact h
          · rw [if_neg hok] at h; exact absurd h (by simp)

theorem parse_str_mono {cs : List Char} {x : List Char × List Char}
    (h : parse_str_body true cs = some x) : parse_str_body false cs = some x :=
  parse_str_mono_len cs.length cs (Nat.le_refl _) x h

theorem parse_str_shape_len :
    ∀ k, ∀ b, ∀ cs : List Char, cs.length ≤ k → ∀ s r, parse_str_body b cs = some (s, r) →
      ∃ u, cs = u ++ r := by
  intro k
  induction k with
  | zero =>
    intro b cs hl s r h
    have hnil : cs = [] := List.length_eq_zero.mp (Nat.le_zero.mp hl)
    subst hnil
    simp [parse_str_body] at h
  | succ k ih =>
    intro b cs hl s r h
    match cs with
    | [] => simp [parse_str_body] at h
    | [c] =>
      rw [parse_str_body.eq_2] at h
      by_cases hq : c = '"'
      · rw [if_pos hq] at h
        simp only [Option.some.injEq, Prod.mk.injEq] at h
        exact ⟨[c], by simp [h.2]⟩
      · rw [if_neg hq] at h
        by_cases hb : c = '\\'
        · rw [if_pos hb] at h; exact absurd h (by simp)
        · rw [if_neg hb] at h
          by_cases hok : str_ok b c = true
          · rw [if_pos hok] at h
            simp [parse_str_body] at h
          · rw [if_neg hok] at h; exact absurd h (by simp)
    | c :: e :: rest2 =>
      rw [parse_str_body.eq_3] at h
      by_cases hq : c = '"'
      · rw [if_pos hq] at h
        simp only [Option.some.injEq, Prod.mk.injEq] at h
        exact ⟨[c], by simp [h.2]⟩
      · rw [if_neg hq] at h
        by_cases hb : c = '\\'
        · rw [if_pos hb] at h
          cases hesc : esc_char e with
          | none => rw [hesc] at h; exact absurd h (by simp)
          | some d =>
            rw [hesc] at h
            cases hrec : parse_str_body b rest2 with
            | none => rw [hrec] at h; exact absurd h (by simp)
            | some pr =>
              obtain ⟨s2, r2⟩ := pr
              rw [hrec] at h
              simp only [Option.some.injEq, Prod.mk.injEq] at h
              have hlen : rest2.length ≤ k := by simp only [List.length_cons] at hl; omega
              obtain ⟨u, hu⟩ := ih b rest2 hlen s2 r2 hrec
              refine ⟨c :: e :: u, ?_⟩
              simp [hu, h.2]
        · rw [if_neg hb] at h
          by_cases hok : str_ok b c = true
          · rw [if_pos hok] at h
            cases hrec : parse_str_body b (e :: rest2) with
            | none => rw [hrec] at h; exact absurd h (by simp)
            | some pr =>
              obtain ⟨s2, r2⟩ := pr
              rw [hrec] at h
              simp only [Option.some.injEq, Prod.mk.injEq] at h
              have hlen : (e :: rest2).length ≤ k := by
                simp only [List.length_cons] at hl ⊢; omega
              obtain ⟨u, hu⟩ := ih b (e :: rest2) hlen s2 r2 hrec
              refine ⟨c :: u, ?_⟩
              simp [hu, h.2]
          · rw [if_neg hok] at h; exact absurd h (by simp)

theorem parse_str_shape {b : Bool} {cs s r : List Char}
    (h : parse_str_body b cs = some (s, r)) : ∃ u, cs = u ++ r :=
  parse_str_shape_len cs.length b cs (Nat.le_refl _) s r h

theorem parse_nat_shape {cs : List Char} {m : Nat} {r : List Char}
    (h : parse_nat cs = some (m, r)) : ∃ u, cs = u ++ r := by
  unfold parse_nat at h
  by_cases hd : (cs.takeWhile Char.isDigit).isEmpty
  · rw [if_pos hd] at h; exact absurd h (by simp)
  · rw [if_neg hd] at h
    simp only [Option.some.injEq, Prod.mk.injEq] at h
    exact ⟨cs.takeWhile Char.isDigit, by rw [← h.2]; exact (List.takeWhile_append_dropWhile _ _).symm⟩

/-! ## Strict-to-lenient monotonicity of the JSON parser -/

theorem parse_mono_all (n : Nat) :
    (∀ cs v r, parse_val true n cs = some (v, r) → parse_val false n cs = some (v, r)) ∧
    (∀ cs kvs r, parse_members true n cs = some (kvs, r) →
      parse_members false n cs = some (kvs, r)) ∧
    (∀ cs vs r, parse_elems true n cs = some (vs, r) → parse_elems false n cs = some (vs, r)) := by
  induction n with
  | zero =>
    refine ⟨?_, ?_, ?_⟩ <;> intro cs a r h <;>
      simp [parse_val, parse_members, parse_elems] at h
  | succ n ih =>
    obtain ⟨ihv, ihm, ihe⟩ := ih
    refine ⟨?_, ?_, ?_⟩
    · intro cs v r h
      cases cs with
      | nil => rw [parse_val.eq_2] at h; cases h
      | cons c rest =>
        rw [parse_val.eq_3] at h ⊢
        by_cases h1 : c = lbrace
        · rw [if_pos h1] at h ⊢
          cases hsk : skipWsL rest with
          | nil =>
            rw [hsk] at h
            exact Option.noConfusion h
          | cons d rest2 =>
            rw [hsk] at h
            simp only [] at h ⊢
            by_cases h2 : d = rbrace
            · rw [if_pos h2] at h ⊢; exact h
            · rw [if_neg h2] at h ⊢
              cases hm : parse_members true n (d :: rest2) with
              | none => rw [hm] at h; exact Option.noConfusion h
              | some pr =>
                obtain ⟨kvs2, r2⟩ := pr
                rw [hm] at h
                rw [ihm (d :: rest2) kvs2 r2 hm]
                exact h
        · rw [if_neg h1] at h ⊢
          by_cases h2 : c = '['
          · rw [if_pos h2] at h ⊢
            cases hsk : skipWsL rest with
            | nil =>
              rw [hsk] at h
              exact Option.noConfusion h
            | cons d rest2 =>
              rw [hsk] at h
              simp only [] at h ⊢
              by_cases h3 : d = ']'
              · rw [if_pos h3] at h ⊢; exact h
              · rw [if_neg h3] at h ⊢
                cases he : parse_elems true n (d :: rest2) with
                | none => rw [he] at h; exact Option.noConfusion h
                | some pr =>
                  obtain ⟨vs2, r2⟩ := pr
                  rw [he] at h
                  rw [ihe (d :: rest2) vs2 r2 he]
                  exact h
          · rw [if_neg h2] at h ⊢
            by_cases h3 : c = '"'
            · rw [if_pos h3] at h ⊢
              cases hps : parse_str_body true rest with
              | none => rw [hps] at h; exact Option.noConfusion h
              | some pr =>
                rw [hps] at h
                rw [parse_str_mono hps]
                exact h
            · rw [if_neg h3] at h ⊢
              exact h
    · intro cs kvs r h
      cases cs with
      | nil => rw [parse_members.eq_2] at h; cases h
      | cons c rest =>
        rw [parse_members.eq_3] at h ⊢
        by_cases h1 : c = '"'
        · rw [if_pos h1] at h ⊢
          cases hps : parse_str_body true rest with
          | none => rw [hps] at h; exact Option.noConfusion h
          | some pr =>
            obtain ⟨k1, r1⟩ := pr
            rw [hps] at h
            rw [parse_str_mono hps]
            simp only [] at h ⊢
            cases hsk : skipWsL r1 with
            | nil =>
              rw [hsk] at h
              exact Option.noConfusion h
            | cons d1 r2 =>
              rw [hsk] at h
              simp only [] at h ⊢
              by_cases h2 : d1 = ':'
              · rw [if_pos h2] at h ⊢
                cases hv : parse_val true n (skipWsL r2) with
                | none => rw [hv] at h; exact Option.noConfusion h
                | some pr2 =>
                  obtain ⟨v, r3⟩ := pr2
                  rw [hv] at h
                  rw [ihv (skipWsL r2) v r3 hv]
                  simp only [] at h ⊢
                  cases hsk3 : skipWsL r3 with
                  | nil =>
                    rw [hsk3] at h
                    exact Option.noConfusion h
                  | cons d r4 =>
                    rw [hsk3] at h
                    simp only [] at h ⊢
                    by_cases h4 : d = ','
                    · rw [if_pos h4] at h ⊢
                      cases hm : parse_members true n (skipWsL r4) with
                      | none => rw [hm] at h; exact Option.noConfusion h
                      | some pr3 =>
                        obtain ⟨kvs5, r5⟩ := pr3
                        rw [hm] at h
                        rw [ihm (skipWsL r4) kvs5 r5 hm]
                        exact h
                    · rw [if_neg h4] at h ⊢
                      exact h
              · rw [if_neg h2] at h; exact Option.noConfusion h
        · rw [if_neg h1] at h; exact Option.noConfusion h
    · intro cs vs r h
      rw [parse_elems.eq_2] at h ⊢
      cases hv : parse_val true n cs with
      | none => rw [hv] at h; exact Option.noConfusion h
      | some pr =>
        obtain ⟨v, r1⟩ := pr
        rw [hv] at h
        rw [ihv cs v r1 hv]
        simp only [] at h ⊢
        cases hsk : skipWsL r1 with
        | nil =>
          rw [hsk] at h
          exact Option.noConfusion h
        | cons d r2 =>
          rw [hsk] at h
          simp only [] at h ⊢
          by_cases h2 : d = ','
          · rw [if_pos h2] at h ⊢
            cases he : parse_elems true n (skipWsL r2) with
            | none => rw [he] at h; exact Option.noConfusion h
            | some pr2 =>
              obtain ⟨vs3, r3⟩ := pr2
              rw [he] at h
              rw [ihe (skipWsL r2) vs3 r3 he]
              exact h
          · rw [if_neg h2] at h ⊢
            exact h

/-! ## Consumed-prefix shape of the JSON parser -/

theorem skip_decomp {cs x : List Char} (h : skipWsL cs = x) :
    ∃ w, cs = w ++ x ∧ ∀ c ∈ w, isWsC c = true :=
  ⟨wsTake cs, by rw [← h]; exact (wsTake_append_skipWsL cs).symm,
    fun c hc => mem_wsTake_ws hc⟩

theorem parse_shape_all (n : Nat) :
    (∀ b cs v r, parse_val b n cs = some (v, r) → ∃ u, cs = u ++ r) ∧
    (∀ b cs kvs r, parse_members b n cs = some (kvs, r) → ∃ u, cs = u ++ rbrace :: r) ∧
    (∀ b cs vs r, parse_elems b n cs = some (vs, r) → ∃ u, cs = u ++ ']' :: r) := by
  induction n with
  | zero =>
    refine ⟨?_, ?_, ?_⟩ <;> intro b cs a r h <;>
      simp [parse_val, parse_members, parse_elems] at h
  | succ n ih =>
    obtain ⟨ihv, ihm, ihe⟩ := ih
    refine ⟨?_, ?_, ?_⟩
    · intro b cs v r h
      cases cs with
      | nil => rw [parse_val.eq_2] at h; cases h
      | cons c rest =>
        rw [parse_val.eq_3] at h
        by_cases h1 : c = lbrace
        · rw [if_pos h1] at h
          cases hsk : skipWsL rest with
          | nil => rw [hsk] at h; exact Option.noConfusion h
          | cons d rest2 =>
            obtain ⟨w, hw, -⟩ := skip_decomp hsk
            rw [hsk] at h
            simp only [] at h
            by_cases h2 : d = rbrace
            · rw [if_pos h2] at h
              simp only [Option.some.injEq, Prod.mk.injEq] at h
              refine ⟨c :: (w ++ [d]), ?_⟩
              rw [List.cons_append, hw, ← h.2]
              simp
            · rw [if_neg h2] at h
              cases hm : parse_members b n (d :: rest2) with
              | none => rw [hm] at h; exact Option.noConfusion h
              | some pr =>
                obtain ⟨kvs2, r2⟩ := pr
                rw [hm] at h
                simp only [Option.some.injEq, Prod.mk.injEq] at h
                obtain ⟨u2, hu2⟩ := ihm b (d :: rest2) kvs2 r2 hm
                refine ⟨c :: (w ++ u2 ++ [rbrace]), ?_⟩
                rw [List.cons_append, hw, hu2, ← h.2]
                simp
        · rw [if_neg h1] at h
          by_cases h2 : c = '['
          · rw [if_pos h2] at h
            cases hsk : skipWsL rest with
            | nil => rw [hsk] at h; exact Option.noConfusion h
            | cons d rest2 =>
              obtain ⟨w, hw, -⟩ := skip_decomp hsk
              rw [hsk] at h
              simp only [] at h
              by_cases h3 : d = ']'
              · rw [if_pos h3] at h
                simp only [Option.some.injEq, Prod.mk.injEq] at h
                refine ⟨c :: (w ++ [d]), ?_⟩
                rw [List.cons_append, hw, ← h.2]
                simp
              · rw [if_neg h3] at h
                cases he : parse_elems b n (d :: rest2) with
                | none => rw [he] at h; exact Option.noConfusion h
                | some pr =>
                  obtain ⟨vs2, r2⟩ := pr
                  rw [he] at h
                  simp only [Option.some.injEq, Prod.mk.injEq] at h
                  obtain ⟨u2, hu2⟩ := ihe b (d :: rest2) vs2 r2 he
                  refine ⟨c :: (w ++ u2 ++ [']']), ?_⟩
                  rw [List.cons_append, hw, hu2, ← h.2]
                  simp
          · rw [if_neg h2] at h
            by_cases h3 : c = '"'
            · rw [if_pos h3] at h
              cases hps : parse_str_body b rest with
              | none => rw [hps] at h; exact Option.noConfusion h
              | some pr =>
                obtain ⟨s1, r1⟩ := pr
                rw [hps] at h
                simp only [Option.some.injEq, Prod.mk.injEq] at h
                obtain ⟨u1, hu1⟩ := parse_str_shape hps
                refine ⟨c :: u1, ?_⟩
                rw [List.cons_append, hu1, ← h.2]
            · rw [if_neg h3] at h
              by_cases h4 : c = 'n'
              · rw [if_pos h4] at h
                by_cases h5 : (rest.take 3 == ['u', 'l', 'l']) = true
                · rw [if_pos h5] at h
                  simp only [Option.some.injEq, Prod.mk.injEq] at h
                  refine ⟨c :: rest.take 3, ?_⟩
                  rw [List.cons_append, ← h.2]
                  simp
                · rw [if_neg h5] at h; exact Option.noConfusion h
              · rw [if_neg h4] at h
                by_cases h6 : c = 't'
                · rw [if_pos h6] at h
                  by_cases h5 : (rest.take 3 == ['r', 'u', 'e']) = true
                  · rw [if_pos h5] at h
                    simp only [Option.some.injEq, Prod.mk.injEq] at h
                    refine ⟨c :: rest.take 3, ?_⟩
                    rw [List.cons_append, ← h.2]
                    simp
                  · rw [if_neg h5] at h; exact Option.noConfusion h
                · rw [if_neg h6] at h
                  by_cases h7 : c = 'f'
                  · rw [if_pos h7] at h
                    by_cases h5 : (rest.take 4 == ['a', 'l', 's', 'e']) = true
                    · rw [if_pos h5] at h
                      simp only [Option.some.injEq, Prod.mk.injEq] at h
                      refine ⟨c :: rest.take 4, ?_⟩
                      rw [List.cons_append, ← h.2]
                      simp
                    · rw [if_neg h5] at h; exact Option.noConfusion h
                  · rw [if_neg h7] at h
                    by_cases h8 : c = '-'
                    · rw [if_pos h8] at h
                      cases hn : parse_nat rest with
                      | none => rw [hn] at h; exact Option.noConfusion h
                      | some pr =>
                        obtain ⟨m1, r1⟩ := pr
                        rw [hn] at h
                        simp only [Option.some.injEq, Prod.mk.injEq] at h
                        obtain ⟨u1, hu1⟩ := parse_nat_shape hn
                        refine ⟨c :: u1, ?_⟩
                        rw [List.cons_append, hu1, ← h.2]
                    · rw [if_neg h8] at h
                      by_cases h9 : c.isDigit = true
                      · rw [if_pos h9] at h
                        cases hn : parse_nat (c :: rest) with
                        | none => rw [hn] at h; exact Option.noConfusion h
                        | some pr =>
                          obtain ⟨m1, r1⟩ := pr
                          rw [hn] at h
                          simp only [Option.some.injEq, Prod.mk.injEq] at h
                          obtain ⟨u1, hu1⟩ := parse_nat_shape hn
                          refine ⟨u1, ?_⟩
                          rw [hu1, ← h.2]
                      · rw [if_neg h9] at h; exact Option.noConfusion h
    · intro b cs kvs r h
      cases cs with
      | nil => rw [parse_members.eq_2] at h; cases h
      | cons c rest =>
        rw [parse_members.eq_3] at h
        by_cases h1 : c = '"'
        · rw [if_pos h1] at h
          cases hps : parse_str_body b rest with
          | none => rw [hps] at h; exact Option.noConfusion h
          | some pr =>
            obtain ⟨k1, r1⟩ := pr
            rw [hps] at h
            simp only [] at h
            obtain ⟨u1, hu1⟩ := parse_str_shape hps
            cases hsk : skipWsL r1 with
            | nil => rw [hsk] at h; exact Option.noConfusion h
            | cons d1 r2 =>
              obtain ⟨w1, hw1, -⟩ := skip_decomp hsk
              rw [hsk] at h
              simp only [] at h
              by_cases h2 : d1 = ':'
              · rw [if_pos h2] at h
                cases hv : parse_val b n (skipWsL r2) with
                | none => rw [hv] at h; exact Option.noConfusion h
                | some pr2 =>
                  obtain ⟨v, r3⟩ := pr2
                  rw [hv] at h
                  simp only [] at h
                  obtain ⟨u2, hu2⟩ := ihv b (skipWsL r2) v r3 hv
                  obtain ⟨w2, hw2, -⟩ := skip_decomp (rfl : skipWsL r2 = skipWsL r2)
                  cases hsk3 : skipWsL r3 with
                  | nil => rw [hsk3] at h; exact Option.noConfusion h
                  | cons d r4 =>
                    obtain ⟨w3, hw3, -⟩ := skip_decomp hsk3
                    rw [hsk3] at h
                    simp only [] at h
                    by_cases h4 : d = ','
                    · rw [if_pos h4] at h
                      cases hm : parse_members b n (skipWsL r4) with
                      | none => rw [hm] at h; exact Option.noConfusion h
                      | some pr3 =>
                        obtain ⟨kvs5, r5⟩ := pr3
                        rw [hm] at h
                        simp only [Option.some.injEq, Prod.mk.injEq] at h
                        obtain ⟨u3, hu3⟩ := ihm b (skipWsL r4) kvs5 r5 hm
                        obtain ⟨w4, hw4, -⟩ := skip_decomp (rfl : skipWsL r4 = skipWsL r4)
                        refine ⟨c :: (u1 ++ w1 ++ (d1 :: (w2 ++ u2 ++ (w3 ++ (d :: (w4 ++ u3)))))), ?_⟩
                        rw [List.cons_append, hu1, hw1, hw2, hu2, hw3, hw4, hu3, ← h.2]
                        simp
                    · rw [if_neg h4] at h
                      by_cases h5 : d = rbrace
                      · rw [if_pos h5] at h
                        simp only [Option.some.injEq, Prod.mk.injEq] at h
                        refine ⟨c :: (u1 ++ w1 ++ (d1 :: (w2 ++ u2 ++ w3))), ?_⟩
                        rw [List.cons_append, hu1, hw1, hw2, hu2, hw3, ← h.2, ← h5]
                        simp
                      · rw [if_neg h5] at h; exact Option.noConfusion h
              · rw [if_neg h2] at h; exact Option.noConfusion h
        · rw [if_neg h1] at h; exact Option.noConfusion h
    · intro b cs vs r h
      rw [parse_elems.eq_2] at h
      cases hv : parse_val b n cs with
      | none => rw [hv] at h; exact Option.noConfusion h
      | some pr =>
        obtain ⟨v, r1⟩ := pr
        rw [hv] at h
        simp only [] at h
        obtain ⟨u1, hu1⟩ := ihv b cs v r1 hv
        cases hsk : skipWsL r1 with
        | nil => rw [hsk] at h; exact Option.noConfusion h
        | cons d r2 =>
          obtain ⟨w1, hw1, -⟩ := skip_decomp hsk
          rw [hsk] at h
          simp only [] at h
          by_cases h2 : d = ','
          · rw [if_pos h2] at h
            cases he : parse_elems b n (skipWsL r2) with
            | none => rw [he] at h; exact Option.noConfusion h
            | some pr2 =>
              obtain ⟨vs3, r3⟩ := pr2
              rw [he] at h
              simp only [Option.some.injEq, Prod.mk.injEq] at h
              obtain ⟨u2, hu2⟩ := ihe b (skipWsL r2) vs3 r3 he
              obtain ⟨w2, hw2, -⟩ := skip_decomp (rfl : skipWsL r2 = skipWsL r2)
              refine ⟨u1 ++ w1 ++ (d :: (w2 ++ u2)), ?_⟩
              rw [hu1, hw1, hw2, hu2, ← h.2]
              simp
          · rw [if_neg h2] at h
            by_cases h3 : d = ']'
            · rw [if_pos h3] at h
              simp only [Option.some.injEq, Prod.mk.injEq] at h
              refine ⟨u1 ++ w1, ?_⟩
              rw [hu1, hw1, ← h.2, ← h3]
              simp
            · rw [if_neg h3] at h; exact Option.noConfusion h

theorem parse_val_dict_shape {b : Bool} {n : Nat} {cs : List Char} {kvs : List (PyVal × PyVal)}
    {r : List Char} (h : parse_val b n cs = some (PyVal.dict kvs, r)) :
    ∃ mid, cs = lbrace :: (mid ++ rbrace :: r) := by
  cases n with
  | zero => rw [parse_val.eq_1] at h; cases h
  | succ n =>
    cases cs with
    | nil => rw [parse_val.eq_2] at h; cases h
    | cons c rest =>
      rw [parse_val.eq_3] at h
      by_cases h1 : c = lbrace
      · rw [if_pos h1] at h
        cases hsk : skipWsL rest with
        | nil => rw [hsk] at h; exact Option.noConfusion h
        | cons d rest2 =>
          obtain ⟨w, hw, -⟩ := skip_decomp hsk
          rw [hsk] at h
          simp only [] at h
          by_cases h2 : d = rbrace
          · rw [if_pos h2] at h
            simp only [Option.some.injEq, Prod.mk.injEq] at h
            refine ⟨w, ?_⟩
            rw [h1, hw, ← h.2, ← h2]
          · rw [if_neg h2] at h
            cases hm : parse_members b n (d :: rest2) with
            | none => rw [hm] at h; exact Option.noConfusion h
            | some pr =>
              obtain ⟨kvs2, r2⟩ := pr
              rw [hm] at h
              simp only [Option.some.injEq, Prod.mk.injEq] at h
              obtain ⟨u2, hu2⟩ := (parse_shape_all n).2.1 b (d :: rest2) kvs2 r2 hm
              refine ⟨w ++ u2, ?_⟩
              rw [h1, hw, hu2, ← h.2]
              simp
      · rw [if_neg h1] at h
        by_cases h2 : c = '['
        · rw [if_pos h2] at h
          cases hsk : skipWsL rest with
          | nil => rw [hsk] at h; exact Option.noConfusion h
          | cons d rest2 =>
            rw [hsk] at h
            simp only [] at h
            by_cases h3 : d = ']'
            · rw [if_pos h3] at h; simp at h
            · rw [if_neg h3] at h
              cases he : parse_elems b n (d :: rest2) with
              | none => rw [he] at h; exact Option.noConfusion h
              | some pr => rw [he] at h; simp at h
        · rw [if_neg h2] at h
          by_cases h3 : c = '"'
          · rw [if_pos h3] at h
            cases hps : parse_str_body b rest with
            | none => rw [hps] at h; exact Option.noConfusion h
            | some pr => rw [hps] at h; simp at h
          · rw [if_neg h3] at h
            by_cases h4 : c = 'n'
            · rw [if_pos h4] at h
              by_cases h5 : (rest.take 3 == ['u', 'l', 'l']) = true
              · rw [if_pos h5] at h; simp at h
              · rw [if_neg h5] at h; exact Option.noConfusion h
            · rw [if_neg h4] at h
              by_cases h6 : c = 't'
              · rw [if_pos h6] at h
                by_cases h5 : (rest.take 3 == ['r', 'u', 'e']) = true
                · rw [if_pos h5] at h; simp at h
                · rw [if_neg h5] at h; exact Option.noConfusion h
              · rw [if_neg h6] at h
                by_cases h7 : c = 'f'
                · rw [if_pos h7] at h
                  by_cases h5 : (rest.take 4 == ['a', 'l', 's', 'e']) = true
                  · rw [if_pos h5] at h; simp at h
                  · rw [if_neg h5] at h; exact Option.noConfusion h
                · rw [if_neg h7] at h
                  by_cases h8 : c = '-'
                  · rw [if_pos h8] at h
                    cases hn : parse_nat rest with
                    | none => rw [hn] at h; exact Option.noConfusion h
                    | some pr => rw [hn] at h; simp at h
                  · rw [if_neg h8] at h
                    by_cases h9 : c.isDigit = true
                    · rw [if_pos h9] at h
                      cases hn : parse_nat (c :: rest) with
                      | none => rw [hn] at h; exact Option.noConfusion h
                      | some pr => rw [hn] at h; simp at h
                    · rw [if_neg h9] at h; exact Option.noConfusion h

theorem json_loads_inv {b : Bool} {s : String} {kvs : List (PyVal × PyVal)}
    (h : json_loads b s = some (PyVal.dict kvs)) :
    parse_val b ((trimB s.data).length + 1) (trimB s.data) = some (PyVal.dict kvs, []) := by
  unfold json_loads json_loads_core at h
  simp only [] at h
  cases hp : parse_val b ((trimB s.data).length + 1) (trimB s.data) with
  | none => rw [hp] at h; cases h
  | some pr =>
    obtain ⟨v, r⟩ := pr
    rw [hp] at h
    cases r with
    | nil => simp only [Option.some.injEq] at h; rw [h]
    | cons x xs => simp only [] at h; cases h

theorem json_loads_dict_shape {b : Bool} {s : String} {kvs : List (PyVal × PyVal)}
    (h : json_loads b s = some (PyVal.dict kvs)) :
    ∃ mid, trimB s.data = lbrace :: (mid ++ [rbrace]) :=
  parse_val_dict_shape (json_loads_inv h)

/-! ## Pipeline normalisation no-ops -/

theorem rstrip_bs_snoc {xs : List Char} {c : Char} (h : ¬c = '\\') :
    rstrip_bs (xs ++ [c]) = xs ++ [c] := by
  simp [rstrip_bs, List.dropWhile_cons, h]

theorem trunc_last_rbrace_snoc (xs : List Char) :
    trunc_last_rbrace (xs ++ [rbrace]) = xs ++ [rbrace] := by
  unfold trunc_last_rbrace
  rw [List.reverse_append]
  simp only [List.reverse_cons, List.reverse_nil, List.nil_append, List.cons_append,
    List.dropWhile_cons]
  have : (!(rbrace = rbrace : Bool)) = false := by simp
  simp only [List.singleton_append, decide_True, Bool.not_true]
  simp

theorem isWsC_lbrace : isWsC lbrace = false := by decide

theorem isWsC_rbrace : isWsC rbrace = false := by decide

theorem isWsC_btick : isWsC btick = false := by decide

theorem trimB_core (mid : List Char) :
    trimB (lbrace :: (mid ++ [rbrace])) = lbrace :: (mid ++ [rbrace]) :=
  trimB_eq_self mid isWsC_lbrace isWsC_rbrace

/-! ## The pipeline on valid fence-free payloads -/

theorem pipeline_strict {s : String} {m : List (PyVal × PyVal)}
    (hp : json_loads true s = some (PyVal.dict m))
    (hf : contains_sub tripleBT s.data = false) :
    safe_parse_json s = Except.ok (PyVal.dict m) := by
  obtain ⟨mid, e1⟩ := json_loads_dict_shape hp
  have hval := json_loads_inv hp
  have hf2 : contains_sub tripleBT (trimB s.data) = false := contains_sub_trimB _ _ hf
  rw [e1] at hf2 hval
  have hshape : lbrace :: (mid ++ [rbrace]) = (lbrace :: mid) ++ [rbrace] := by simp
  have hr : rstrip_bs (lbrace :: (mid ++ [rbrace])) = lbrace :: (mid ++ [rbrace]) := by
    rw [hshape]; exact rstrip_bs_snoc (by decide)
  have ht : trunc_last_rbrace (lbrace :: (mid ++ [rbrace])) = lbrace :: (mid ++ [rbrace]) := by
    rw [hshape]; exact trunc_last_rbrace_snoc _
  have hstage2 : json_loads_core false (lbrace :: (mid ++ [rbrace])) = some (PyVal.dict m) := by
    unfold json_loads_core
    simp only [trimB_core, (parse_mono_all _).1 _ _ _ hval]
  simp only [safe_parse_json, e1, hf2, Bool.false_eq_true, if_false, hr, ht, hstage2]

/-! ## Fence extraction on a wrapped payload -/

theorem fence_close_cons3 {l : List Char} {a b c : Char} {t : List Char}
    (h : skipWsL l = a :: b :: c :: t) :
    fence_close l = (a = btick && b = btick && c = btick) := by
  unfold fence_close
  rw [h]

theorem fence_close_short {l x : List Char} (h : skipWsL l = x) (hlen : x.length ≤ 2) :
    fence_close l = false := by
  unfold fence_close
  rw [h]
  cases x with
  | nil => rfl
  | cons a t =>
    cases t with
    | nil => rfl
    | cons b t2 =>
      cases t2 with
      | nil => rfl
      | cons c t3 => simp at hlen

theorem not_rbrace_btick : ¬(rbrace = btick) := by decide

theorem fence_close_false {mid2 : List Char} (v : List Char)
    (hnt : contains_sub tripleBT (mid2 ++ [rbrace]) = false) :
    fence_close (mid2 ++ rbrace :: v) = false := by
  induction mid2 with
  | nil =>
    simp only [List.nil_append]
    have hsk : skipWsL (rbrace :: v) = rbrace :: v := skipWsL_cons_not_ws isWsC_rbrace
    cases v with
    | nil => exact fence_close_short hsk (by simp)
    | cons v1 vt =>
      cases vt with
      | nil => exact fence_close_short hsk (by simp)
      | cons v2 vt2 =>
        rw [fence_close_cons3 hsk]
        simp [not_rbrace_btick]
  | cons x mid2' ih =>
    simp only [List.cons_append] at hnt ⊢
    by_cases hx : isWsC x = true
    · unfold fence_close
      rw [skipWsL_cons_ws hx]
      have := ih (contains_sub_tail hnt)
      unfold fence_close at this
      exact this
    · have hx' : isWsC x = false := by
        cases hxx : isWsC x
        · rfl
        · exact absurd hxx hx
      have hsk : skipWsL (x :: (mid2' ++ rbrace :: v)) = x :: (mid2' ++ rbrace :: v) :=
        skipWsL_cons_not_ws hx'
      cases mid2' with
      | nil =>
        simp only [List.nil_append] at hsk ⊢
        cases v with
        | nil => exact fence_close_short hsk (by simp)
        | cons v1 vt =>
          rw [fence_close_cons3 hsk]
          simp [not_rbrace_btick]
      | cons y mid3 =>
        cases mid3 with
        | nil =>
          simp only [List.cons_append, List.nil_append] at hsk ⊢
          rw [fence_close_cons3 hsk]
          simp [not_rbrace_btick]
        | cons z mid4 =>
          simp only [List.cons_append] at hsk ⊢
          rw [fence_close_cons3 hsk]
          by_cases hxb : x = btick
          · by_cases hyb : y = btick
            · by_cases hzb : z = btick
              · exfalso
                subst hxb; subst hyb; subst hzb
                simp only [contains_sub, List.cons_append, Bool.or_eq_false_iff] at hnt
                have := hnt.1
                simp [tripleBT, List.isPrefixOf] at this
              · simp [hzb]
            · simp [hyb]
          · simp [hxb]

theorem scan_group_spec (mid2 : List Char) (w : List Char)
    (hnt : contains_sub tripleBT (mid2 ++ [rbrace]) = false)
    (hw : ∀ c ∈ w, isWsC c = true) :
    scan_group (mid2 ++ rbrace :: (w ++ '\n' :: tripleBT)) = some (mid2 ++ [rbrace]) := by
  induction mid2 with
  | nil =>
    simp only [List.nil_append]
    rw [scan_group.eq_2]
    have hfc : fence_close (w ++ '\n' :: tripleBT) = true := by
      unfold fence_close
      rw [skipWsL_append_of_allWs _ hw, skipWsL_cons_ws (by decide)]
      decide
    rw [hfc]
    simp
  | cons x mid2' ih =>
    simp only [List.cons_append] at hnt ⊢
    rw [scan_group.eq_2]
    have hfc : fence_close (mid2' ++ rbrace :: (w ++ '\n' :: tripleBT)) = false :=
      fence_close_false _ (contains_sub_tail hnt)
    rw [hfc]
    rw [ih (contains_sub_tail hnt)]
    simp

theorem wrap_fence_data (P : String) :
    (wrap_fence P).data = btick :: btick :: btick :: '\n' :: (P.data ++ ('\n' :: tripleBT)) := by
  unfold wrap_fence fence_pre fence_post
  rw [String.data_append, String.data_append]
  simp [tripleBT]

theorem skipWsL_of_trimB {cs core : List Char} (h : trimB cs = core) :
    ∃ tws, skipWsL cs = core ++ tws ∧ ∀ c ∈ tws, isWsC c = true := by
  obtain ⟨w, hw, hws⟩ := dropEndWs_spec (skipWsL cs)
  exact ⟨w, by rw [← h]; exact hw, hws⟩

theorem match_fence_at_payload {P : String} {mid : List Char}
    (hcore : trimB P.data = lbrace :: (mid ++ [rbrace]))
    (hnf : contains_sub tripleBT P.data = false) :
    match_fence_at ('\n' :: (P.data ++ ('\n' :: tripleBT))) = some (lbrace :: (mid ++ [rbrace])) := by
  obtain ⟨tws, hskp, htws⟩ := skipWsL_of_trimB hcore
  obtain ⟨w0, hw0, -⟩ := skip_decomp hskp
  have hnt : contains_sub tripleBT (mid ++ [rbrace]) = false := by
    apply contains_sub_false_split (w0 ++ [lbrace]) tws
    rw [← hnf, hw0]
    simp
  have hstrip : strip_json_tag ('\n' :: (P.data ++ ('\n' :: tripleBT))) =
      '\n' :: (P.data ++ ('\n' :: tripleBT)) := by
    unfold strip_json_tag
    simp [List.take_succ_cons]
  have hskip2 : skipWsL ('\n' :: (P.data ++ ('\n' :: tripleBT))) =
      lbrace :: ((mid ++ [rbrace] ++ tws) ++ ('\n' :: tripleBT)) := by
    rw [skipWsL_cons_ws (by decide)]
    have : skipWsL P.data = lbrace :: (mid ++ [rbrace] ++ tws) := by
      rw [hskp]; simp
    rw [skipWsL_append_cons _ this]
  unfold match_fence_at
  rw [hstrip, hskip2]
  simp only []
  rw [if_true]
  have hre : mid ++ [rbrace] ++ tws ++ '\n' :: tripleBT =
      mid ++ rbrace :: (tws ++ '\n' :: tripleBT) := by simp
  rw [hre, scan_group_spec mid tws hnt htws]

theorem find_fence_wrapped {P : String} {mid : List Char}
    (hcore : trimB P.data = lbrace :: (mid ++ [rbrace]))
    (hnf : contains_sub tripleBT P.data = false) :
    find_fence (wrap_fence P).data = some (lbrace :: (mid ++ [rbrace])) := by
  rw [wrap_fence_data]
  rw [find_fence.eq_2]
  have hcond : (btick = btick && (btick :: btick :: '\n' :: (P.data ++ ('\n' :: tripleBT))).take 2
      == [btick, btick]) = true := by
    simp [List.take_succ_cons]
  rw [hcond]
  simp only [if_true]
  have hdrop : (btick :: btick :: '\n' :: (P.data ++ ('\n' :: tripleBT))).drop 2 =
      '\n' :: (P.data ++ ('\n' :: tripleBT)) := by simp
  rw [hdrop, match_fence_at_payload hcore hnf]

theorem pipeline_wrapped {P : String} {m : List (PyVal × PyVal)}
    (hp : json_loads true P = some (PyVal.dict m))
    (hnf : contains_sub tripleBT P.data = false) :
    safe_parse_json (wrap_fence P) = Except.ok (PyVal.dict m) := by
  obtain ⟨mid, e1⟩ := json_loads_dict_shape hp
  have hval := json_loads_inv hp
  rw [e1] at hval
  have hWdata := wrap_fence_data P
  have hWshape : btick :: btick :: btick :: '\n' :: (P.data ++ ('\n' :: tripleBT)) =
      btick :: ((btick :: btick :: '\n' :: (P.data ++ ['\n', btick, btick])) ++ [btick]) := by
    simp [tripleBT]
  have htrim : trimB (wrap_fence P).data = (wrap_fence P).data := by
    rw [hWdata, hWshape, trimB_eq_self _ isWsC_btick isWsC_btick]
  have hcontains : contains_sub tripleBT (wrap_fence P).data = true := by
    rw [hWdata]
    simp [contains_sub, tripleBT, List.isPrefixOf]
  have hff := find_fence_wrapped e1 hnf
  have hshape : lbrace :: (mid ++ [rbrace]) = (lbrace :: mid) ++ [rbrace] := by simp
  have hr : rstrip_bs (lbrace :: (mid ++ [rbrace])) = lbrace :: (mid ++ [rbrace]) := by
    rw [hshape]; exact rstrip_bs_snoc (by decide)
  have ht : trunc_last_rbrace (lbrace :: (mid ++ [rbrace])) = lbrace :: (mid ++ [rbrace]) := by
    rw [hshape]; exact trunc_last_rbrace_snoc _
  have hstage2 : json_loads_core false (lbrace :: (mid ++ [rbrace])) = some (PyVal.dict m) := by
    unfold json_loads_core
    simp only [trimB_core, (parse_mono_all _).1 _ _ _ hval]
  simp only [safe_parse_json, htrim, hcontains, if_true, hff, hr, ht, hstage2]

/-! ## Claim C5 -/

/-- C5, counterexample: the payload `cex5` is decoded by a direct strict
JSON parse to a mapping with the single key `content`, yet the repair
pipeline returns the different mapping `(1 : 2)`: the fence-extraction
stage fires on the backticks inside the string value, so valid payloads do
not always pass through unchanged. -/
theorem c5_counterexample :
    json_loads true cex5 =
      some (PyVal.dict [(PyVal.str "content", PyVal.str "``` \x7b1: 2\x7d ```")]) ∧
    safe_parse_json cex5 = Except.ok (PyVal.dict [(PyVal.int 1, PyVal.int 2)]) ∧
    ¬(PyVal.dict [(PyVal.int 1, PyVal.int 2)] =
      PyVal.dict [(PyVal.str "content", PyVal.str "``` \x7b1: 2\x7d ```")]) :=
  ⟨rfl, rfl, by simp⟩

/-- C5, amended: for every raw argument string that a direct strict JSON
parse decodes to an argument mapping **and that does not contain three
consecutive backticks**, the repair pipeline returns exactly the same
mapping as the direct strict parse. -/
theorem c5_amended (s : String) (m : List (PyVal × PyVal))
    (hp : json_loads true s = some (PyVal.dict m))
    (hf : contains_sub tripleBT s.data = false) :
    safe_parse_json s = Except.ok (PyVal.dict m) :=
  pipeline_strict hp hf

/-- Witness for `c5_amended` at a concrete valid payload. -/
theorem c5_witness :
    json_loads true wit_payload =
      some (PyVal.dict [(PyVal.str "a", PyVal.int 1), (PyVal.str "b", PyVal.str "x")]) ∧
    contains_sub tripleBT wit_payload.data = false ∧
    safe_parse_json wit_payload =
      Except.ok (PyVal.dict [(PyVal.str "a", PyVal.int 1), (PyVal.str "b", PyVal.str "x")]) :=
  ⟨rfl, rfl, c5_amended wit_payload _ rfl rfl⟩

/-! ## Claim C6 -/

/-- C6, counterexample: `cex6` is a valid payload (its direct strict parse
and its pipeline parse agree), but wrapping it in a fenced code block makes
the pipeline fail outright — the lazy fence group ends at the brace inside
the string value — so wrapping does not always preserve the parsed
mapping. -/
theorem c6_counterexample :
    json_loads true cex6 = some (PyVal.dict [(PyVal.str "a", PyVal.str "\x7d ```")]) ∧
    safe_parse_json cex6 = Except.ok (PyVal.dict [(PyVal.str "a", PyVal.str "\x7d ```")]) ∧
    safe_parse_json (wrap_fence cex6) = Except.error (parse_fail_msg (wrap_fence cex6)) :=
  ⟨rfl, rfl, rfl⟩

/-- C6, amended: for every valid payload `P` **that does not itself
contain three consecutive backticks**, parsing `P` wrapped in a fenced
code block through the repair pipeline yields the same parsed mapping as
parsing the unwrapped `P`. -/
theorem c6_amended (P : String) (m : List (PyVal × PyVal))
    (hp : json_loads true P = some (PyVal.dict m))
    (hf : contains_sub tripleBT P.data = false) :
    safe_parse_json (wrap_fence P) = Except.ok (PyVal.dict m) ∧
    safe_parse_json P = Except.ok (PyVal.dict m) :=
  ⟨pipeline_wrapped hp hf, pipeline_strict hp hf⟩

/-- Witness for `c6_amended` at a concrete valid payload. -/
theorem c6_witness :
    json_loads true wit_payload =
      some (PyVal.dict [(PyVal.str "a", PyVal.int 1), (PyVal.str "b", PyVal.str "x")]) ∧
    contains_sub tripleBT wit_payload.data = false ∧
    (safe_parse_json (wrap_fence wit_payload) =
      Except.ok (PyVal.dict [(PyVal.str "a", PyVal.int 1), (PyVal.str "b", PyVal.str "x")]) ∧
    safe_parse_json wit_payload =
      Except.ok (PyVal.dict [(PyVal.str "a", PyVal.int 1), (PyVal.str "b", PyVal.str "x")])) :=
  ⟨rfl, rfl, c6_amended wit_payload _ rfl rfl⟩

/-! ## Trace counting -/

theorem count_api_cons (e : Ev) (tr : List Ev) :
    count_api (e :: tr) = if e = Ev.apiCall then count_api tr + 1 else count_api tr := by
  by_cases h : e = Ev.apiCall
  · subst h; simp [count_api, List.filter_cons]
  · simp [count_api, List.filter_cons, h]

theorem count_shell_cons (e : Ev) (tr : List Ev) :
    count_shell (e :: tr) =
      if is_shell_ev e = true then count_shell tr + 1 else count_shell tr := by
  by_cases h : is_shell_ev e = true
  · simp [count_shell, List.filter_cons, h]
  · simp [count_shell, List.filter_cons, h]

/-! ## Handler traces -/

theorem add_job_trace (p c l : String) (t : Nat) (st : St) :
    (add_job p c l t st).trace = st.trace := by
  unfold add_job
  split
  · rfl
  · split <;> rfl

theorem run_write_trace (wd : List String) (st : St) (pv cv : PyVal) (app : Bool) :
    (run_write wd st pv cv app).2.trace = st.trace := by
  unfold run_write
  cases pv with
  | str p =>
    dsimp only
    cases hsp : safe_path wd p with
    | error e => rfl
    | ok segs =>
      dsimp only
      split
      · rfl
      · cases cv <;> rfl
  | int n => rfl
  | bool b => rfl
  | none => rfl
  | list l => rfl
  | dict kvs => rfl

theorem run_edit_trace (wd : List String) (st : St) (pv ov nv : PyVal) :
    (run_edit wd st pv ov nv).2.trace = st.trace := by
  unfold run_edit
  split
  · rename_i p ot nt
    cases hsp : safe_path wd p with
    | error e => rfl
    | ok segs =>
      dsimp only
      cases hlk : List.lookup (render_segs segs) st.files with
      | none => rfl
      | some text =>
        dsimp only
        split
        · rfl
        · rfl
  · rfl

theorem run_todo_trace (items : PyVal) (st : St) : (run_todo items st).2.trace = st.trace := by
  unfold run_todo
  split <;> rfl

theorem run_search_trace (sys : Sys) (qv lv : PyVal) (st : St) :
    (run_search sys qv lv st).2.trace = st.trace := rfl

theorem run_bash_ok (sys : Sys) (cmd : String) (bg : Bool) (st : St) :
    ∃ out st2, run_bash sys (PyVal.str cmd) bg st = Except.ok (out, st2) ∧
      count_api st2.trace = count_api st.trace ∧
      count_shell st2.trace ≤ count_shell st.trace + 1 := by
  unfold run_bash
  dsimp only
  by_cases hd : dangerous cmd = true
  · rw [if_pos hd]
    exact ⟨_, st, rfl, rfl, by omega⟩
  · rw [if_neg hd]
    by_cases hbg : bg = true
    · rw [if_pos hbg]
      split
      · refine ⟨_, _, rfl, ?_, ?_⟩ <;>
          simp [bump, pushEv, count_api_cons, count_shell_cons, is_shell_ev]
      · refine ⟨_, _, rfl, ?_, ?_⟩ <;>
          simp [bump, pushEv, count_api_cons, count_shell_cons, is_shell_ev]
      · refine ⟨_, _, rfl, ?_, ?_⟩ <;>
          rw [add_job_trace] <;>
          simp [bump, pushEv, count_api_cons, count_shell_cons, is_shell_ev]
    · rw [if_neg hbg]
      split
      · refine ⟨_, _, rfl, ?_, ?_⟩ <;>
          simp [bump, pushEv, count_api_cons, count_shell_cons, is_shell_ev]
      · refine ⟨_, _, rfl, ?_, ?_⟩ <;>
          simp [bump, pushEv, count_api_cons, count_shell_cons, is_shell_ev]

theorem run_wait_ok (v : PyVal) (st : St) (h : wait_arg_ok v = true) :
    ∃ out st2, run_wait v st = Except.ok (out, st2) ∧
      count_api st2.trace = count_api st.trace ∧
      count_shell st2.trace = count_shell st.trace := by
  unfold run_wait
  unfold wait_arg_ok at h
  dsimp only
  cases hi : py_to_int v with
  | none =>
    simp only [Option.getD_none]
    rw [if_neg (by omega : ¬((10 : Int) > 3600)), if_neg (by omega : ¬((10 : Int) < 0))]
    refine ⟨_, _, rfl, ?_, ?_⟩ <;>
      simp [bump, pushEv, count_api_cons, count_shell_cons, is_shell_ev]
  | some n =>
    rw [hi] at h
    simp only [decide_eq_true_eq] at h
    simp only [Option.getD_some]
    by_cases hc : n > (3600 : Int)
    · rw [if_pos hc, if_neg (by omega : ¬((3600 : Int) < 0))]
      refine ⟨_, _, rfl, ?_, ?_⟩ <;>
        simp [bump, pushEv, count_api_cons, count_shell_cons, is_shell_ev]
    · rw [if_neg hc, if_neg (by omega : ¬(n < 0))]
      refine ⟨_, _, rfl, ?_, ?_⟩ <;>
        simp [bump, pushEv, count_api_cons, count_shell_cons, is_shell_ev]

/-! ## Safe dispatch -/

theorem ok_pair_api (st : St) (p : String × St) (hp : p.2.trace = st.trace) :
    ∃ out st2, (Except.ok p : TRes) = Except.ok (out, st2) ∧
      count_api st2.trace = count_api st.trace :=
  ⟨p.1, p.2, rfl, by rw [hp]⟩

theorem exec_body_safe_ok (sys : Sys) (th : String → String → String → St → TRes)
    (name : String) (args : PyVal) (st : St) (h : safe_call name args = true) :
    ∃ out st2, execute_tool_body sys th name args st = Except.ok (out, st2) ∧
      count_api st2.trace = count_api st.trace := by
  unfold safe_call at h
  unfold execute_tool_body
  by_cases h1 : name = "bash"
  · rw [if_pos h1] at h ⊢
    unfold has_str_key at h
    cases hps : py_sub args "command" with
    | error e => rw [hps] at h; cases h
    | ok v =>
      rw [hps] at h
      cases v with
      | str cmd =>
        dsimp only
        obtain ⟨out, st2, heq, hapi, -⟩ :=
          run_bash_ok sys cmd (truthy (py_getD args "background" (PyVal.bool false))) st
        exact ⟨out, st2, heq, hapi⟩
      | int m => cases h
      | bool b => cases h
      | none => cases h
      | list l => cases h
      | dict kvs => cases h
  · rw [if_neg h1] at h ⊢
    by_cases h2 : name = "read_file"
    · rw [if_pos h2] at h ⊢
      unfold has_key at h
      cases hps : py_sub args "path" with
      | error e => rw [hps] at h; cases h
      | ok v => exact ⟨_, st, rfl, rfl⟩
    · rw [if_neg h2] at h ⊢
      by_cases h3 : name = "search_datasets"
      · rw [if_pos h3] at h ⊢
        unfold has_key at h
        cases hps : py_sub args "query" with
        | error e => rw [hps] at h; cases h
        | ok v => exact ok_pair_api st _ (run_search_trace sys v _ st)
      · rw [if_neg h3] at h ⊢
        by_cases h4 : name = "write_file"
        · rw [if_pos h4] at h ⊢
          simp only [Bool.and_eq_true] at h
          obtain ⟨hk1, hk2⟩ := h
          unfold has_key at hk1 hk2
          cases hps1 : py_sub args "path" with
          | error e => rw [hps1] at hk1; cases hk1
          | ok v1 =>
            cases hps2 : py_sub args "content" with
            | error e => rw [hps2] at hk2; cases hk2
            | ok v2 => exact ok_pair_api st _ (run_write_trace sys.workdir st v1 v2 _)
        · rw [if_neg h4] at h ⊢
          by_cases h5 : name = "edit_file"
          · rw [if_pos h5] at h ⊢
            simp only [Bool.and_eq_true] at h
            obtain ⟨⟨hk1, hk2⟩, hk3⟩ := h
            unfold has_key at hk1 hk2 hk3
            cases hps1 : py_sub args "path" with
            | error e => rw [hps1] at hk1; cases hk1
            | ok v1 =>
              cases hps2 : py_sub args "old_text" with
              | error e => rw [hps2] at hk2; cases hk2
              | ok v2 =>
                cases hps3 : py_sub args "new_text" with
                | error e => rw [hps3] at hk3; cases hk3
                | ok v3 => exact ok_pair_api st _ (run_edit_trace sys.workdir st v1 v2 v3)
          · rw [if_neg h5] at h ⊢
            by_cases h6 : name = "TodoWrite"
            · rw [if_pos h6] at h ⊢
              unfold has_key at h
              cases hps : py_sub args "items" with
              | error e => rw [hps] at h; cases h
              | ok v => exact ok_pair_api st _ (run_todo_trace v st)
            · rw [if_neg h6] at h ⊢
              by_cases h7 : name = "Task"
              · rw [if_pos h7] at h; cases h
              · rw [if_neg h7] at h ⊢
                by_cases h8 : name = "Skill"
                · rw [if_pos h8] at h ⊢
                  unfold has_key at h
                  cases hps : py_sub args "skill" with
                  | error e => rw [hps] at h; cases h
                  | ok v => exact ⟨_, st, rfl, rfl⟩
                · rw [if_neg h8] at h ⊢
                  by_cases h9 : name = "wait"
                  · rw [if_pos h9] at h ⊢
                    cases hps : py_sub args "seconds" with
                    | error e => rw [hps] at h; cases h
                    | ok v =>
                      rw [hps] at h
                      dsimp only
                      obtain ⟨out, st2, heq, hapi, -⟩ := run_wait_ok v st h
                      exact ⟨out, st2, heq, hapi⟩
                  · rw [if_neg h9] at h ⊢
                    exact ⟨_, st, rfl, rfl⟩

theorem exec_safe_ok (reg : Registry) (sys : Sys) (d : Nat) (name : String) (args : PyVal)
    (st : St) (h : safe_call name args = true) :
    ∃ out st2, execute_tool reg sys d name args st = Except.ok (out, st2) ∧
      count_api st2.trace = count_api st.trace := by
  cases d with
  | zero => exact exec_body_safe_ok sys _ name args st h
  | succ d2 => exact exec_body_safe_ok sys _ name args st h

/-- C9, counterexample: a `bash` dispatch with a missing `command` key
raises `KeyError` out of `execute_tool` (the subscript `args["command"]`
happens in the dispatcher, before the handler could return an error
string), refuting that every failing tool invocation is reported as a
returned error string. -/
theorem c9_counterexample :
    execute_tool regR sys_bash 1 "bash" (PyVal.dict []) st0 =
      Except.error (PyExn.keyError "command", st0) := rfl

/-- C9 (amended): for tool invocations whose required argument keys are
present (with a string `bash` command and a non-negative `wait`
duration) and that are not the `Task` meta-tool, dispatch returns a
string result rather than raising; the handler bodies themselves catch
their failures and return descriptive error strings.  Missing required
keys, a negative `wait` duration, and exceptions propagating out of a
`Task` sub-agent escape as exceptions. -/
theorem c9_amended (reg : Registry) (sys : Sys) (d : Nat) (name : String) (args : PyVal)
    (st : St) (h : safe_call name args = true) :
    ∃ out st2, execute_tool reg sys d name args st = Except.ok (out, st2) := by
  obtain ⟨out, st2, heq, -⟩ := exec_safe_ok reg sys d name args st h
  exact ⟨out, st2, heq⟩

/-- C9 witness: a well-formed `wait` call dispatches to a returned
string. -/
theorem c9_witness :
    safe_call "wait" (PyVal.dict [(PyVal.str "seconds", PyVal.int 5)]) = true ∧
    ∃ out st2,
      execute_tool regR sys_noop 1 "wait" (PyVal.dict [(PyVal.str "seconds", PyVal.int 5)]) st0 =
        Except.ok (out, st2) :=
  ⟨rfl, c9_amended regR sys_noop 1 "wait" (PyVal.dict [(PyVal.str "seconds", PyVal.int 5)]) st0 rfl⟩

theorem run_sub_tools_g_ok (reg : Registry) (sys : Sys) (d : Nat) (tcs : List ToolCall)
    (msgs : List Msg) (st : St)
    (h : ∀ tc ∈ tcs, ∃ args, json_loads true tc.arguments = some args ∧
      safe_call tc.name args = true) :
    ∃ msgs2 st2,
      run_sub_tools_g (execute_tool reg sys d) tcs msgs st = Except.ok (msgs2, st2) ∧
      count_api st2.trace = count_api st.trace := by
  induction tcs generalizing msgs st with
  | nil => exact ⟨msgs, st, rfl, rfl⟩
  | cons tc rest ih =>
    obtain ⟨args, hj, hs⟩ := h tc (List.mem_cons_self _ _)
    rw [run_sub_tools_g, hj]
    simp only []
    obtain ⟨out, st2, heq, hapi⟩ := exec_safe_ok reg sys d tc.name args st hs
    rw [heq]
    simp only []
    obtain ⟨msgs2, st3, heq2, hapi2⟩ :=
      ih (msgs ++ [Msg.tool tc.id out]) st2 (fun tc2 htc2 => h tc2 (List.mem_cons_of_mem _ htc2))
    exact ⟨msgs2, st3, heq2, by rw [hapi2, hapi]⟩

theorem run_task_steps_g_limit (reg : Registry) (sys : Sys) (d : Nat)
    (h : always_tool_calls sys) (k : Nat) (msgs : List Msg) (st : St) :
    ∃ st2, run_task_steps_g sys (execute_tool reg sys d) k msgs st =
        Except.ok ("(subagent step limit reached)", st2) ∧
      count_api st2.trace = count_api st.trace + k := by
  induction k generalizing msgs st with
  | zero => exact ⟨st, rfl, rfl⟩
  | succ k ih =>
    rw [run_task_steps_g]
    obtain ⟨c, tcs, hb, hne, hall⟩ := h st.tick msgs
    rw [hb]
    dsimp only
    have hne2 : ¬(tcs.isEmpty = true) := by
      cases tcs with
      | nil => exact absurd rfl hne
      | cons a l => simp
    rw [if_neg hne2]
    obtain ⟨msgs2, st2, heq, hapi⟩ :=
      run_sub_tools_g_ok reg sys d tcs (msgs ++ [Msg.assistant c tcs])
        (bump (pushEv Ev.apiCall st)) hall
    rw [heq]
    simp only []
    obtain ⟨st3, heq3, hapi3⟩ := ih msgs2 st2
    refine ⟨st3, heq3, ?_⟩
    rw [hapi3, hapi]
    simp only [bump, pushEv, count_api_cons, eq_self_iff_true, if_true]
    omega

/-- C4: under a registered agent type, if every backend reply in the
sub-agent loop carries tool calls (all of them parseable and safely
dispatchable, so the loop never terminates naturally and never raises),
`run_task` stops after exactly ten request/response rounds — the trace
gains exactly ten backend requests — and returns the fixed sentinel
string, regardless of the pending tool calls of the tenth reply. -/
theorem c4_theorem (reg : Registry) (sys : Sys) (d : Nat) (desc prompt atype : String)
    (cfg : AgentType) (st : St) (hlk : reg.lookup atype = some cfg)
    (h : always_tool_calls sys) :
    ∃ st2, run_task reg sys d desc prompt atype st =
        Except.ok ("(subagent step limit reached)", st2) ∧
      count_api st2.trace = count_api st.trace + 10 := by
  unfold run_task run_task_g
  rw [hlk]
  simp only []
  exact run_task_steps_g_limit reg sys d h 10
    [Msg.system (sub_system_prompt sys cfg atype), Msg.user prompt] st

/-- C4 witness: the restricted `reader` role under a backend that always
replies with one harmless, parseable tool call hits the step ceiling. -/
theorem c4_witness :
    regR.lookup "reader" =
      some { prompt := "You explore and read files.", tools := ToolSpec.only ["read_file"] } ∧
    ∃ st2, run_task regR sys_noop 1 "list files" "read everything" "reader" st0 =
        Except.ok ("(subagent step limit reached)", st2) ∧
      count_api st2.trace = count_api st0.trace + 10 :=
  ⟨rfl,
    c4_theorem regR sys_noop 1 "list files" "read everything" "reader"
      { prompt := "You explore and read files.", tools := ToolSpec.only ["read_file"] } st0 rfl
      (fun _ _ =>
        ⟨Option.none, [{ id := "1", name := "noop_tool", arguments := "\x7b\x7d" }], rfl,
          List.cons_ne_nil _ _,
          by
            intro tc htc
            rw [List.mem_singleton] at htc
            subst htc
            exact ⟨PyVal.dict [], rfl, rfl⟩⟩)⟩

/-! ## Shell-free dispatch -/

theorem res_trace_okp (p : String × St) : res_trace (Except.ok p) = p.2.trace := rfl

theorem res_trace_errp (q : PyExn × St) : res_trace (Except.error q) = q.2.trace := rfl

theorem run_wait_shell (v : PyVal) (st : St) :
    count_shell (res_trace (run_wait v st)) = count_shell st.trace := by
  unfold run_wait
  dsimp only
  split
  · rfl
  · split <;> rfl

theorem exec_body_nonshell (sys : Sys) (th : String → String → String → St → TRes)
    (name : String) (args : PyVal) (st : St) (hm : name ∈ NONSHELL) :
    count_shell (res_trace (execute_tool_body sys th name args st)) = count_shell st.trace := by
  simp only [NONSHELL, List.mem_cons, List.mem_singleton, List.not_mem_nil, or_false] at hm
  unfold execute_tool_body
  rcases hm with rfl | rfl | rfl | rfl | rfl
  · rw [if_neg (show ¬("read_file" = "bash") by decide), if_pos rfl]
    cases hps : py_sub args "path" with
    | error e => rfl
    | ok v => rfl
  · rw [if_neg (show ¬("write_file" = "bash") by decide),
      if_neg (show ¬("write_file" = "read_file") by decide),
      if_neg (show ¬("write_file" = "search_datasets") by decide), if_pos rfl]
    cases hps1 : py_sub args "path" with
    | error e => rfl
    | ok v1 =>
      cases hps2 : py_sub args "content" with
      | error e => rfl
      | ok v2 =>
        exact congrArg count_shell
          (run_write_trace sys.workdir st v1 v2 (truthy (py_getD args "append" (PyVal.bool false))))
  · rw [if_neg (show ¬("edit_file" = "bash") by decide),
      if_neg (show ¬("edit_file" = "read_file") by decide),
      if_neg (show ¬("edit_file" = "search_datasets") by decide),
      if_neg (show ¬("edit_file" = "write_file") by decide), if_pos rfl]
    cases hps1 : py_sub args "path" with
    | error e => rfl
    | ok v1 =>
      cases hps2 : py_sub args "old_text" with
      | error e => rfl
      | ok v2 =>
        cases hps3 : py_sub args "new_text" with
        | error e => rfl
        | ok v3 => exact congrArg count_shell (run_edit_trace sys.workdir st v1 v2 v3)
  · rw [if_neg (show ¬("TodoWrite" = "bash") by decide),
      if_neg (show ¬("TodoWrite" = "read_file") by decide),
      if_neg (show ¬("TodoWrite" = "search_datasets") by decide),
      if_neg (show ¬("TodoWrite" = "write_file") by decide),
      if_neg (show ¬("TodoWrite" = "edit_file") by decide), if_pos rfl]
    cases hps : py_sub args "items" with
    | error e => rfl
    | ok v => exact congrArg count_shell (run_todo_trace v st)
  · rw [if_neg (show ¬("wait" = "bash") by decide),
      if_neg (show ¬("wait" = "read_file") by decide),
      if_neg (show ¬("wait" = "search_datasets") by decide),
      if_neg (show ¬("wait" = "write_file") by decide),
      if_neg (show ¬("wait" = "edit_file") by decide),
      if_neg (show ¬("wait" = "TodoWrite") by decide),
      if_neg (show ¬("wait" = "Task") by decide),
      if_neg (show ¬("wait" = "Skill") by decide), if_pos rfl]
    cases hps : py_sub args "seconds" with
    | error e => rfl
    | ok v => exact run_wait_shell v st

theorem exec_nonshell (reg : Registry) (sys : Sys) (d : Nat) (name : String) (args : PyVal)
    (st : St) (hm : name ∈ NONSHELL) :
    count_shell (res_trace (execute_tool reg sys d name args st)) = count_shell st.trace := by
  cases d with
  | zero => exact exec_body_nonshell sys _ name args st hm
  | succ d2 => exact exec_body_nonshell sys _ name args st hm

theorem run_sub_tools_g_shell (reg : Registry) (sys : Sys) (d : Nat) (tcs : List ToolCall)
    (msgs : List Msg) (st : St) (h : ∀ tc ∈ tcs, tc.name ∈ NONSHELL) :
    count_shell (sub_res_st (run_sub_tools_g (execute_tool reg sys d) tcs msgs st)).trace =
      count_shell st.trace := by
  induction tcs generalizing msgs st with
  | nil => rfl
  | cons tc rest ih =>
    rw [run_sub_tools_g]
    cases hj : json_loads true tc.arguments with
    | none => rfl
    | some args =>
      simp only []
      cases hex : execute_tool reg sys d tc.name args st with
      | error es =>
        have h2 := exec_nonshell reg sys d tc.name args st (h tc (List.mem_cons_self _ _))
        rw [hex] at h2
        exact h2
      | ok p =>
        have h2 := exec_nonshell reg sys d tc.name args st (h tc (List.mem_cons_self _ _))
        rw [hex] at h2
        have h3 := ih (msgs ++ [Msg.tool tc.id p.1]) p.2
          (fun tc2 htc2 => h tc2 (List.mem_cons_of_mem _ htc2))
        exact h3.trans h2

theorem run_task_steps_g_shell (reg : Registry) (sys : Sys) (d : Nat)
    (h : only_nonshell sys) (k : Nat) (msgs : List Msg) (st : St) :
    count_shell (res_trace (run_task_steps_g sys (execute_tool reg sys d) k msgs st)) =
      count_shell st.trace := by
  induction k generalizing msgs st with
  | zero => rfl
  | succ k ih =>
    rw [run_task_steps_g]
    dsimp only
    cases hb : sys.backend st.tick msgs with
    | failure e => rfl
    | reply c tcs =>
      simp only []
      by_cases hne : tcs.isEmpty = true
      · rw [if_pos hne]
        rfl
      · rw [if_neg hne]
        have hsub := run_sub_tools_g_shell reg sys d tcs (msgs ++ [Msg.assistant c tcs])
          (bump (pushEv Ev.apiCall st)) (h st.tick msgs c tcs hb)
        cases hrs : run_sub_tools_g (execute_tool reg sys d) tcs
            (msgs ++ [Msg.assistant c tcs]) (bump (pushEv Ev.apiCall st)) with
        | error es =>
          rw [hrs] at hsub
          exact hsub
        | ok q =>
          rw [hrs] at hsub
          exact (ih q.1 q.2).trans hsub

/-- C1, counterexample: the `reader` role's advertised toolset is
restricted to `read_file` only, yet when its backend requests `bash`
calls anyway the dispatcher executes them — ten shell executions in a
full sub-agent run — because `execute_tool` performs no role-based
filtering. -/
theorem c1_counterexample :
    get_tools_for_agent regR "reader" = ["read_file"] ∧
    count_shell (res_trace (run_task regR sys_bash 1 "explore" "look around" "reader" st0)) =
      10 :=
  ⟨rfl, rfl⟩

/-- C1 (amended): the role restriction lives only in the advertised
toolset (`get_tools_for_agent`); dispatch itself never filters.  What
does hold: if every tool call the backend emits names a shell-free base
tool (as a model honouring a `bash`-free toolset would), the sub-agent
run performs no shell execution. -/
theorem c1_amended (reg : Registry) (sys : Sys) (d : Nat) (desc prompt atype : String)
    (st : St) (h : only_nonshell sys) :
    count_shell (res_trace (run_task reg sys d desc prompt atype st)) =
      count_shell st.trace := by
  unfold run_task run_task_g
  cases hlk : reg.lookup atype with
  | none => rfl
  | some cfg => exact run_task_steps_g_shell reg sys d h 10 _ st

/-- C1 witness: a `reader` sub-agent whose backend only requests
`read_file` performs no shell execution. -/
theorem c1_witness :
    count_shell (res_trace (run_task regR sys_read 1 "explore" "read it" "reader" st0)) =
      count_shell st0.trace :=
  c1_amended regR sys_read 1 "explore" "read it" "reader" st0
    (fun i msgs c tcs hb => by
      cases hb
      intro tc htc
      rw [List.mem_singleton] at htc
      subst htc
      decide)

/-- C3, counterexample: a sub-agent whose first reply carries a tool
call with unparseable argument text raises `json.JSONDecodeError` out of
`run_task` (the bare `json.loads` has no enclosing `try`), instead of
appending a diagnostic `tool` message and continuing. -/
theorem c3_counterexample :
    run_task regR sys_badargs 1 "explore" "go" "reader" st0 =
      Except.error (PyExn.jsonError "Expecting value", bump (pushEv Ev.apiCall st0)) := rfl

/-- C3 (amended): in the sub-agent loop a tool call whose raw argument
text fails the strict parse aborts the whole sub-agent by raising — the
appended-diagnostic-and-continue behaviour exists only in the top-level
loop (`process_tool_calls`), whose per-call `try` then reports the
raised error for the enclosing `Task` call. -/
theorem c3_amended (reg : Registry) (sys : Sys) (d : Nat) (desc prompt atype : String)
    (cfg : AgentType) (st : St) (c : Option String) (tc : ToolCall) (rest : List ToolCall)
    (hlk : reg.lookup atype = some cfg)
    (hb : sys.backend st.tick [Msg.system (sub_system_prompt sys cfg atype), Msg.user prompt] =
      BackendRes.reply c (tc :: rest))
    (hj : json_loads true tc.arguments = Option.none) :
    run_task reg sys d desc prompt atype st =
      Except.error (PyExn.jsonError "Expecting value", bump (pushEv Ev.apiCall st)) := by
  unfold run_task run_task_g
  rw [hlk]
  simp only []
  show run_task_steps_g sys (execute_tool reg sys d) (9 + 1)
    [Msg.system (sub_system_prompt sys cfg atype), Msg.user prompt] st = _
  rw [run_task_steps_g]
  dsimp only
  rw [hb]
  simp only []
  rw [if_neg (by simp : ¬((tc :: rest).isEmpty = true))]
  rw [run_sub_tools_g, hj]

/-- C3 witness: the concrete bad-arguments backend instantiates the
amended statement. -/
theorem c3_witness :
    run_task regR sys_badargs 1 "explore" "go again" "reader" st0 =
      Except.error (PyExn.jsonError "Expecting value", bump (pushEv Ev.apiCall st0)) :=
  c3_amended regR sys_badargs 1 "explore" "go again" "reader"
    { prompt := "You explore and read files.", tools := ToolSpec.only ["read_file"] }
    st0 Option.none { id := "1", name := "bash", arguments := "\x7b" } [] rfl rfl rfl

set_option maxRecDepth 10000 in
/-- C2, counterexample: pid 5's process is gone at the first poll (the
summary reports DONE and the stored status latches), but at the second
poll the recycled pid is alive again and the `check_jobs` summary
reverts to RUNNING — the reported status is recomputed from fresh
liveness on every call and is not read from the latched store. -/
theorem c2_counterexample :
    (check_jobs sys_recycle stJ).1 =
      "[PID 5] Status: DONE | Time: 0m 50s | Log: l.log | Cmd: sleep 1..." ∧
    (check_jobs sys_recycle (check_jobs sys_recycle stJ).2).1 =
      "[PID 5] Status: RUNNING | Time: 0m 51s | Log: l.log | Cmd: sleep 1..." ∧
    ((check_jobs sys_recycle (check_jobs sys_recycle stJ).2).2.jobs.map
      (fun e => (e.1, e.2.status))) = [(5, "done")] :=
  ⟨by decide, by decide, by decide⟩

/-- C2 (amended): the *stored* status does latch: a tracked job whose
stored status is `done` keeps the entry unchanged in position, pid and
status through any further `check_jobs` call, whatever liveness now says
for its pid.  Only the stored field is latched; the summary string is
rebuilt from fresh liveness each call and can revert (see the
counterexample). -/
theorem c2_amended (sys : Sys) (st : St) (i : Nat) (pid : Int) (j : Job)
    (hget : st.jobs[i]? = some (pid, j)) (hdone : j.status = "done") :
    ∃ j2, (check_jobs sys st).2.jobs[i]? = some (pid, j2) ∧ j2.status = "done" := by
  have hne : ¬(st.jobs.isEmpty = true) := by
    intro h
    rw [List.isEmpty_iff] at h
    rw [h] at hget
    simp at hget
  unfold check_jobs
  rw [if_neg hne]
  simp only [bump]
  rw [List.getElem?_map, List.getElem?_map, hget]
  simp only [Option.map_some']
  refine ⟨_, rfl, ?_⟩
  simp [hdone]

/-- C2 witness: the latched store of the recycled-pid scenario. -/
theorem c2_witness :
    ∃ j2, (check_jobs sys_recycle (check_jobs sys_recycle stJ).2).2.jobs[0]? =
        some (5, j2) ∧ j2.status = "done" :=
  c2_amended sys_recycle (check_jobs sys_recycle stJ).2 0 5
    { cmd := "sleep 1", log := "l.log", start_time := 50, status := "done" } rfl rfl

/-- C7: a todo update with two `in_progress` items is rejected as a
whole: `update` reports the error and the state — in particular the
stored todo list — is exactly unchanged, because the stored list is
assigned only after the whole validation pass succeeds. -/
theorem c7_theorem (c1 a1 c2 a2 : String) (st : St)
    (h1 : strip_str c1 ≠ "") (h2 : strip_str a1 ≠ "")
    (h3 : strip_str c2 ≠ "") (h4 : strip_str a2 ≠ "") :
    run_todo (two_in_progress c1 a1 c2 a2) st =
      ("Error: Only one task can be in_progress", st) := by
  unfold run_todo todo_update two_in_progress
  have g1 : ∀ x y z : String, py_getD
      (PyVal.dict [(PyVal.str "content", PyVal.str x), (PyVal.str "status", PyVal.str y),
        (PyVal.str "activeForm", PyVal.str z)]) "content" (PyVal.str "") = PyVal.str x :=
    fun x y z => rfl
  have g2 : ∀ x y z : String, py_getD
      (PyVal.dict [(PyVal.str "content", PyVal.str x), (PyVal.str "status", PyVal.str y),
        (PyVal.str "activeForm", PyVal.str z)]) "status" (PyVal.str "pending") = PyVal.str y :=
    fun x y z => rfl
  have g3 : ∀ x y z : String, py_getD
      (PyVal.dict [(PyVal.str "content", PyVal.str x), (PyVal.str "status", PyVal.str y),
        (PyVal.str "activeForm", PyVal.str z)]) "activeForm" (PyVal.str "") = PyVal.str z :=
    fun x y z => rfl
  have hl : str_lower "in_progress" = "in_progress" := rfl
  simp [todo_validate, g1, g2, g3, py_to_string, h1, h2, h3, h4, hl]
  rfl

/-- C7 witness: a concrete double-`in_progress` update is rejected with
the state untouched. -/
theorem c7_witness :
    run_todo (two_in_progress "task a" "doing a" "task b" "doing b") st0 =
      ("Error: Only one task can be in_progress", st0) :=
  c7_theorem "task a" "doing a" "task b" "doing b" st0
    (by decide) (by decide) (by decide) (by decide)

/-- Every message the per-turn tool loop appends to the history is a
`tool` result. -/
theorem process_tool_calls_shape (reg : Registry) (sys : Sys) (d : Nat)
    (tcs : List ToolCall) (msgs : List Msg) (st : St) :
    ∃ suffix, (process_tool_calls reg sys d tcs msgs st).1 = msgs ++ suffix ∧
      ∀ m ∈ suffix, is_assistant_or_tool m = true := by
  induction tcs generalizing msgs st with
  | nil => exact ⟨[], by simp [process_tool_calls], by simp⟩
  | cons tc rest ih =>
    rw [process_tool_calls]
    cases hp : safe_parse_json tc.arguments with
    | error e =>
      obtain ⟨sfx, hs, hm⟩ :=
        ih (msgs ++ [Msg.tool tc.id (tool_error_msg (PyExn.valueError e))]) st
      refine ⟨[Msg.tool tc.id (tool_error_msg (PyExn.valueError e))] ++ sfx, ?_, ?_⟩
      · rw [hs, List.append_assoc]
      · intro m hm2
        rcases List.mem_append.mp hm2 with h | h
        · rw [List.mem_singleton] at h
          subst h
          rfl
        · exact hm m h
    | ok args =>
      simp only []
      cases hex : execute_tool reg sys d tc.name args st with
      | error q =>
        obtain ⟨sfx, hs, hm⟩ :=
          ih (msgs ++ [Msg.tool tc.id (tool_error_msg q.1)]) q.2
        refine ⟨[Msg.tool tc.id (tool_error_msg q.1)] ++ sfx, ?_, ?_⟩
        · rw [hs, List.append_assoc]
        · intro m hm2
          rcases List.mem_append.mp hm2 with h | h
          · rw [List.mem_singleton] at h
            subst h
            rfl
          · exact hm m h
      | ok p =>
        obtain ⟨sfx, hs, hm⟩ := ih (msgs ++ [Msg.tool tc.id p.1]) p.2
        refine ⟨[Msg.tool tc.id p.1] ++ sfx, ?_, ?_⟩
        · rw [hs, List.append_assoc]
        · intro m hm2
          rcases List.mem_append.mp hm2 with h | h
          · rw [List.mem_singleton] at h
            subst h
            rfl
          · exact hm m h

/-- C8: over any number of iterations of the top-level loop, the
persistent history grows only by assistant replies and `tool` results —
the synthetic status message is never appended to it — while every
request actually sent to the backend carries exactly one synthetic
status message, as its final element. -/
theorem c8_theorem (reg : Registry) (sys : Sys) (d : Nat) (f : Nat) (msgs : List Msg) (st : St) :
    ∃ suffix, (agent_loop reg sys d f msgs st).1 = msgs ++ suffix ∧
      (∀ m ∈ suffix, is_assistant_or_tool m = true) ∧
      ∀ req ∈ (agent_loop reg sys d f msgs st).2.2,
        ∃ pre t js, req = pre ++ [Msg.system (status_text t js)] := by
  induction f generalizing msgs st with
  | zero =>
    refine ⟨[], by simp [agent_loop], by simp, ?_⟩
    intro req hreq
    simp [agent_loop] at hreq
  | succ f ih =>
    rw [agent_loop]
    dsimp only
    cases hb : sys.backend (get_context_injection sys st).2.tick
        (msgs ++ [Msg.system (get_context_injection sys st).1]) with
    | failure e =>
      refine ⟨[], by simp, by simp, ?_⟩
      intro req hreq
      rw [List.mem_singleton] at hreq
      subst hreq
      exact ⟨msgs, sys.now st.tick, (check_jobs sys st).1, rfl⟩
    | reply content tcs =>
      simp only []
      by_cases hne : tcs.isEmpty = true
      · rw [if_pos hne]
        refine ⟨[Msg.assistant content tcs], rfl, ?_, ?_⟩
        · intro m hm
          rw [List.mem_singleton] at hm
          subst hm
          rfl
        · intro req hreq
          rw [List.mem_singleton] at hreq
          subst hreq
          exact ⟨msgs, sys.now st.tick, (check_jobs sys st).1, rfl⟩
      · rw [if_neg hne]
        dsimp only
        obtain ⟨s1, hs1, hm1⟩ := process_tool_calls_shape reg sys d tcs
          (msgs ++ [Msg.assistant content tcs])
          (bump (pushEv Ev.apiCall (get_context_injection sys st).2))
        obtain ⟨s2, hs2, hm2, hreq2⟩ :=
          ih (process_tool_calls reg sys d tcs (msgs ++ [Msg.assistant content tcs])
              (bump (pushEv Ev.apiCall (get_context_injection sys st).2))).1
            (process_tool_calls reg sys d tcs (msgs ++ [Msg.assistant content tcs])
              (bump (pushEv Ev.apiCall (get_context_injection sys st).2))).2
        refine ⟨[Msg.assistant content tcs] ++ s1 ++ s2, ?_, ?_, ?_⟩
        · rw [hs2, hs1]
          simp [List.append_assoc]
        · intro m hm
          rcases List.mem_append.mp hm with h | h
          · rcases List.mem_append.mp h with h2 | h2
            · rw [List.mem_singleton] at h2
              subst h2
              rfl
            · exact hm1 m h2
          · exact hm2 m h
        · intro req hreq
          rcases List.mem_cons.mp hreq with h | h
          · subst h
            exact ⟨msgs, sys.now st.tick, (check_jobs sys st).1, rfl⟩
          · exact hreq2 req h

/-- C10: for an existing in-workspace file, a negative limit `L` reads
in tail mode — the returned output embeds the join of the lines from
index `max 0 (n + L)` on (the last `abs L` lines), under a header
reporting the total line count `n` — and a positive limit reads the
first `L` lines, in both cases provided the assembled output is within
the truncation bound. -/
theorem c10_theorem (wd : List String) (st : St) (path : String) (segs : List String)
    (content : String) (L : Int)
    (hsp : safe_path wd path = Except.ok segs)
    (hlk : st.files.lookup (render_segs segs) = some content) :
    (L < 0 →
      (read_output path (readlines content).length
          (s!"(Last {L.natAbs} lines - TAIL MODE)")
          (String.join ((readlines content).drop
            (max 0 ((readlines content).length + L)).toNat))).length ≤ 50000 →
      run_read_file wd st (PyVal.str path) (some (PyVal.int L)) =
        read_output path (readlines content).length
          (s!"(Last {L.natAbs} lines - TAIL MODE)")
          (String.join ((readlines content).drop
            (max 0 ((readlines content).length + L)).toNat))) ∧
    (0 < L →
      (read_output path (readlines content).length (s!"(First {L} lines)")
          (String.join ((readlines content).take L.toNat))).length ≤ 50000 →
      run_read_file wd st (PyVal.str path) (some (PyVal.int L)) =
        read_output path (readlines content).length (s!"(First {L} lines)")
          (String.join ((readlines content).take L.toNat))) := by
  unfold run_read_file
  simp only []
  rw [hsp]
  simp only []
  rw [hlk]
  simp only []
  dsimp only [py_int_like]
  constructor
  · intro hL hlen
    rw [if_neg (by omega : ¬(L > 0)), if_pos hL]
    simp only []
    have hmax : (Int.ofNat (readlines content).length + L).toNat =
        (max 0 ((readlines content).length + L)).toNat := by
      rw [Int.ofNat_eq_natCast]
      omega
    rw [hmax]
    rw [if_neg (by omega : ¬((read_output path (readlines content).length
        (s!"(Last {L.natAbs} lines - TAIL MODE)")
        (String.join ((readlines content).drop
          (max 0 ((readlines content).length + L)).toNat))).length > 50000))]
  · intro hL hlen
    rw [if_pos (by omega : L > 0)]
    simp only []
    rw [if_neg (by omega : ¬((read_output path (readlines content).length
        (s!"(First {L} lines)")
        (String.join ((readlines content).take L.toNat))).length > 50000))]


/-- C10 witness: tail mode on a five-line file with limit `-2` returns
the last two lines under the Total-5-lines header. -/
theorem c10_witness :
    run_read_file ["ws"] stF (PyVal.str "a.txt") (some (PyVal.int (-2))) =
      "== File: a.txt ==\n== Meta: Total 5 lines (Last 2 lines - TAIL MODE) ==\n== Content Start ==\nl4\nl5\n== Content End ==" :=
  (( c10_theorem ["ws"] stF "a.txt" ["ws", "a.txt"] "l1\nl2\nl3\nl4\nl5" (-2)
    rfl (by decide)).1 (by decide) (by decide)).trans (by decide)
